import Mathlib

/-!
# Verification of the Smart Sort core of `omnifocus-sync-obsidian`

Shallow embedding of `src/smart-sort.ts` together with the pieces of
`src/llm.ts`, `src/settings.ts` and `src/url-metadata.ts` that the Smart
Sort pipeline depends on.

Modelling conventions:
* JavaScript strings are Lean `String`s; character-level regex replacements
  (`relaxJson`, `closeTruncatedArray`, the code-fence strip, whitespace
  collapsing) are implemented as explicit scanners that reproduce the
  left-to-right, leftmost-match, greedy semantics of the concrete patterns
  used by the source (for these patterns the greedy `\s*` never needs to
  backtrack, because no closing character is itself whitespace).
* `JSON.parse` is embedded as a recursive-descent parser over `List Char`
  following the JSON grammar accepted by the JavaScript built-in
  (strict: no trailing commas, `0`-prefixed integers rejected, strings with
  escape sequences, exact whitespace set).  JSON numbers are modelled as
  exact rationals; IEEE-754 double rounding is not modelled, which is
  faithful for the small decimal literals all claims are about.
* External effects (the task store, the metadata fetcher, the chat client)
  are oracles carried by an environment record; a run of `smartSort` is a
  pure function of the configuration, the settings and that environment,
  returning `Except` (a thrown exception is `Except.error`) together with
  the trace of external calls it performed.
-/

namespace OmniSync

/-- The characters matched by JavaScript's `\s` character class (also the
set removed by `String.prototype.trim`). -/
def jsWs (c : Char) : Bool :=
  c = ' ' || c = '\t' || c = '\n' || c.toNat = 0xB || c.toNat = 0xC ||
  c = '\r' || c.toNat = 0xA0 || c.toNat = 0x1680 ||
  (0x2000 ≤ c.toNat && c.toNat ≤ 0x200A) ||
  c.toNat = 0x2028 || c.toNat = 0x2029 || c.toNat = 0x202F ||
  c.toNat = 0x205F || c.toNat = 0x3000 || c.toNat = 0xFEFF

/-- `String.prototype.trim`: strip JavaScript whitespace from both ends. -/
def jsTrim (s : String) : String :=
  ⟨((s.data.dropWhile jsWs).reverse.dropWhile jsWs).reverse⟩

/-- `String.prototype.toLowerCase`, restricted to the per-character
(non-locale) mapping provided by `Char.toLower`. -/
def jsToLower (s : String) : String :=
  ⟨s.data.map Char.toLower⟩

/-- Length of the maximal run of JavaScript whitespace at the head of the
list (what a greedy `\s*` consumes). -/
def wsRunLen : List Char → Nat
  | [] => 0
  | c :: r => if jsWs c then wsRunLen r + 1 else 0

/-- `p` is a prefix of `l` (plain Boolean check used by the scanners). -/
def leadsWith : List Char → List Char → Bool
  | [], _ => true
  | _ :: _, [] => false
  | p :: ps, c :: cs => p == c && leadsWith ps cs

/-- The backtick character (written by code so the file itself contains no
backtick outside strings). -/
def btick : Char := Char.ofNat 96

/-- The opening curly brace character. -/
def lbrace : Char := Char.ofNat 123

/-- The closing curly brace character. -/
def rbrace : Char := Char.ofNat 125

/-- One pass of the global replacement `s.replace(<comma, optional
whitespace, closer>, closer)` used by `relaxJson` for a fixed closing
character `close` (the source does one pass for the bracket `]` and then
one for the brace).  Mirrors JavaScript `String.replace` with the `g`
flag: scan left to right, on a match emit the closer and resume after the
matched text, otherwise emit one character and advance.  The fuel is the
length of the scanned list; every step consumes at least one character. -/
def relaxPassGo (close : Char) : Nat → List Char → List Char
  | _, [] => []
  | 0, cs => cs
  | Nat.succ fuel, c :: rest =>
    if c = ',' then
      let k := wsRunLen rest
      if (rest.drop k).head? = some close then
        close :: relaxPassGo close fuel (rest.drop (k + 1))
      else
        c :: relaxPassGo close fuel rest
    else
      c :: relaxPassGo close fuel rest

/-- `relaxJson` from `src/smart-sort.ts`: remove a comma (with any
whitespace after it) that sits immediately before a closing bracket, then
do the same for a closing brace. -/
def relaxJson (s : String) : String :=
  let pass1 := relaxPassGo ']' s.data.length s.data
  ⟨relaxPassGo rbrace pass1.length pass1⟩

/-- The leftmost match of the anchored pattern <comma, whitespace, end of
string> is the last comma of the string, and only when everything after it
is whitespace; `t.replace` deletes that comma together with the trailing
whitespace and otherwise leaves `t` alone. -/
def stripTrailingCommaWs (t : String) : String :=
  let core : List Char := (t.data.reverse.dropWhile jsWs).reverse
  match core.getLast? with
  | some c => if c = ',' then ⟨core.dropLast⟩ else t
  | none => t

/-- `closeTruncatedArray` from `src/smart-sort.ts`: if the trimmed content
starts with `[` but does not end with `]`, strip a dangling trailing comma
and append `]`; otherwise return the input unchanged.  (`startsWith "["`
and `endsWith "]"` are single-character tests, written on the character
list.) -/
def closeTruncatedArray (s : String) : String :=
  let t := jsTrim s
  if t.data.head? == some '[' && !(t.data.getLast? == some ']') then
    stripTrailingCommaWs t ++ "]"
  else s

/-- The seven-character opening fence marker with language tag. -/
def fenceJson : List Char := [btick, btick, btick, 'j', 's', 'o', 'n']

/-- A bare three-backtick fence. -/
def fence3 : List Char := [btick, btick, btick]

/-- Global replacement of the fence pattern (fence-with-`json`-tag followed
by greedy whitespace, or greedy whitespace followed by a bare fence) with
the empty string, as performed on the raw model output by both parsers.
Alternation is tried left to right at each position, exactly like the
JavaScript regex engine: the tagged alternative wins where both match. -/
def stripFencesGo : Nat → List Char → List Char
  | _, [] => []
  | 0, cs => cs
  | Nat.succ fuel, c :: rest =>
    if leadsWith fenceJson (c :: rest) then
      let after := (c :: rest).drop 7
      stripFencesGo fuel (after.drop (wsRunLen after))
    else
      let k := wsRunLen (c :: rest)
      if leadsWith fence3 ((c :: rest).drop k) then
        stripFencesGo fuel ((c :: rest).drop (k + 3))
      else
        c :: stripFencesGo fuel rest

/-- Strip Markdown code fences from raw model output. -/
def stripFences (s : String) : String :=
  ⟨stripFencesGo s.data.length s.data⟩

/-- Global replacement of runs of two or more whitespace characters with a
single space, used by the preprocessor on the leftover note text.  A run
of length one is left as-is (the pattern requires at least two). -/
def collapseWs : Nat → List Char → List Char
  | _, [] => []
  | 0, cs => cs
  | Nat.succ fuel, c :: rest =>
    if jsWs c then
      let k := wsRunLen rest
      if 1 ≤ k then ' ' :: collapseWs fuel (rest.drop k)
      else c :: collapseWs fuel rest
    else c :: collapseWs fuel rest

/-- `String.replace` with a string pattern: replace the first occurrence of
`pat` with the empty string (the preprocessor removes the URL from the
note this way).  An empty pattern matches at position 0 and removing it
changes nothing, matching the JavaScript behaviour. -/
def dropFirstOcc (pat : List Char) : List Char → List Char
  | [] => []
  | c :: rest =>
    if leadsWith pat (c :: rest) then (c :: rest).drop pat.length
    else c :: dropFirstOcc pat rest

/-! ## JSON values and `JSON.parse` -/

/-- A JavaScript JSON value.  Numbers are exact rationals (see the header
note); objects keep their key/value pairs in source order, duplicates
included, and field access resolves duplicates last-wins as the JavaScript
object literal semantics does. -/
inductive Json where
  | null : Json
  | bool : Bool → Json
  | num : Rat → Json
  | str : String → Json
  | arr : List Json → Json
  | obj : List (String × Json) → Json

/-- Property access `o[k]` on a parsed JSON object: the last binding of a
duplicated key wins, a missing key is `undefined` (`none`). -/
def getField (kvs : List (String × Json)) (k : String) : Option Json :=
  (kvs.reverse.find? (fun kv => kv.1 == k)).map (·.2)

/-- JSON grammar whitespace (`JSON.parse` accepts exactly these four). -/
def jsonWs (c : Char) : Bool :=
  c = ' ' || c = '\t' || c = '\n' || c = '\r'

/-- Skip JSON whitespace. -/
def skipWs (cs : List Char) : List Char := cs.dropWhile jsonWs

/-- Value of a hexadecimal digit. -/
def hexVal? (c : Char) : Option Nat :=
  if '0' ≤ c ∧ c ≤ '9' then some (c.toNat - 48)
  else if 'a' ≤ c ∧ c ≤ 'f' then some (c.toNat - 87)
  else if 'A' ≤ c ∧ c ≤ 'F' then some (c.toNat - 55)
  else none

/-- Single-character escape sequences of JSON strings. -/
def escChar? (c : Char) : Option Char :=
  if c = '"' then some '"'
  else if c = '\\' then some '\\'
  else if c = '/' then some '/'
  else if c = 'b' then some (Char.ofNat 8)
  else if c = 'f' then some (Char.ofNat 12)
  else if c = 'n' then some '\n'
  else if c = 'r' then some '\r'
  else if c = 't' then some '\t'
  else none

/-- Parse the body of a JSON string, positioned just after the opening
quote; returns the decoded characters and the input after the closing
quote.  Raw control characters are rejected, escapes are decoded
(`Char.ofNat` stands in for UTF-16 code-unit semantics of `\uXXXX`). -/
def parseStrBody : Nat → List Char → Option (List Char × List Char)
  | _, [] => none
  | 0, _ => none
  | Nat.succ fuel, c :: rest =>
    if c = '"' then some ([], rest)
    else if c = '\\' then
      match rest with
      | [] => none
      | e :: rest2 =>
        match escChar? e with
        | some ec => (parseStrBody fuel rest2).map (fun p => (ec :: p.1, p.2))
        | none =>
          if e = 'u' then
            match rest2 with
            | h1 :: h2 :: h3 :: h4 :: rest3 =>
              match hexVal? h1, hexVal? h2, hexVal? h3, hexVal? h4 with
              | some a, some b, some c2, some d =>
                (parseStrBody fuel rest3).map
                  (fun p => (Char.ofNat (a * 4096 + b * 256 + c2 * 16 + d) :: p.1, p.2))
              | _, _, _, _ => none
            | _ => none
          else none
    else if c.toNat < 32 then none
    else (parseStrBody fuel rest).map (fun p => (c :: p.1, p.2))

/-- Numeric value of a digit string. -/
def digitsVal (ds : List Char) : Nat :=
  ds.foldl (fun n c => n * 10 + (c.toNat - 48)) 0

/-- Optional fraction part: a dot must be followed by at least one digit;
no dot consumes nothing. -/
def parseFrac : List Char → Option (List Char × List Char)
  | '.' :: r =>
    let ds := r.takeWhile Char.isDigit
    if ds.isEmpty then none else some (ds, r.dropWhile Char.isDigit)
  | cs => some ([], cs)

/-- Optional exponent part, returning the signed exponent. -/
def parseExp : List Char → Option (Int × List Char)
  | [] => some (0, [])
  | c :: r =>
    if c = 'e' ∨ c = 'E' then
      let (sgn, r2) : Int × List Char :=
        match r with
        | '+' :: rr => (1, rr)
        | '-' :: rr => (-1, rr)
        | _ => (1, r)
      let ds := r2.takeWhile Char.isDigit
      if ds.isEmpty then none
      else some (sgn * (digitsVal ds : Int), r2.dropWhile Char.isDigit)
    else some (0, c :: r)

/-- Assemble the rational value of a parsed number,
`±(ip.fracDs) · 10^ex`, as a single normalized fraction (plain `Nat`/`Int`
arithmetic and one `mkRat`, so that the value computes by kernel
reduction). -/
def mkJsonNum (neg : Bool) (ip : Nat) (fracDs : List Char) (ex : Int) : Rat :=
  let len := fracDs.length
  let mant : Nat := ip * Nat.pow 10 len + digitsVal fracDs
  let num : Nat := if 0 ≤ ex then mant * Nat.pow 10 ex.toNat else mant
  let den : Nat := if 0 ≤ ex then Nat.pow 10 len else Nat.pow 10 len * Nat.pow 10 (-ex).toNat
  mkRat (if neg then -(num : Int) else (num : Int)) den

/-- Fraction and exponent tail of a number whose integer part is known. -/
def parseNumTail (neg : Bool) (ip : Nat) (cs : List Char) : Option (Rat × List Char) :=
  match parseFrac cs with
  | none => none
  | some (fds, cs2) =>
    match parseExp cs2 with
    | none => none
    | some (ex, cs3) => some (mkJsonNum neg ip fds ex, cs3)

/-- Parse a JSON number: optional minus, `0` or a nonzero-led digit run
(a leading zero may not be followed by more integer digits), optional
fraction, optional exponent. -/
def parseNumber (cs : List Char) : Option (Rat × List Char) :=
  let (neg, cs1) : Bool × List Char :=
    match cs with
    | '-' :: r => (true, r)
    | _ => (false, cs)
  match cs1 with
  | [] => none
  | c :: rest =>
    if c = '0' then parseNumTail neg 0 rest
    else if c.isDigit then
      parseNumTail neg (digitsVal (c :: rest.takeWhile Char.isDigit))
        (rest.dropWhile Char.isDigit)
    else none

mutual

/-- Parse one JSON value at the head of the input (whitespace already
skipped); returns the value and the unconsumed input. -/
def parseValue : Nat → List Char → Option (Json × List Char)
  | 0, _ => none
  | Nat.succ fuel, cs =>
    match cs with
    | [] => none
    | c :: rest =>
      if c = lbrace then
        match skipWs rest with
        | c2 :: rest2 =>
          if c2 = rbrace then some (Json.obj [], rest2)
          else
            match parseObjItems fuel (c2 :: rest2) with
            | some (kvs, r) => some (Json.obj kvs, r)
            | none => none
        | [] => none
      else if c = '[' then
        match skipWs rest with
        | ']' :: rest2 => some (Json.arr [], rest2)
        | cs2 =>
          match parseArrItems fuel cs2 with
          | some (vs, r) => some (Json.arr vs, r)
          | none => none
      else if c = '"' then
        match parseStrBody (rest.length + 1) rest with
        | some (sb, r) => some (Json.str ⟨sb⟩, r)
        | none => none
      else if leadsWith "true".data cs then some (Json.bool true, cs.drop 4)
      else if leadsWith "false".data cs then some (Json.bool false, cs.drop 5)
      else if leadsWith "null".data cs then some (Json.null, cs.drop 4)
      else
        match parseNumber cs with
        | some (q, r) => some (Json.num q, r)
        | none => none

/-- Parse one or more comma-separated array elements followed by the
closing bracket (a comma must be followed by another element, so a
trailing comma is a parse error, as for `JSON.parse`). -/
def parseArrItems : Nat → List Char → Option (List Json × List Char)
  | 0, _ => none
  | Nat.succ fuel, cs =>
    match parseValue fuel cs with
    | none => none
    | some (v, cs2) =>
      match skipWs cs2 with
      | ',' :: cs3 =>
        match parseArrItems fuel (skipWs cs3) with
        | some (vs, r) => some (v :: vs, r)
        | none => none
      | c2 :: cs3 => if c2 = ']' then some ([v], cs3) else none
      | [] => none

/-- Parse one or more comma-separated object members followed by the
closing brace. -/
def parseObjItems : Nat → List Char → Option (List (String × Json) × List Char)
  | 0, _ => none
  | Nat.succ fuel, cs =>
    match cs with
    | c :: rest =>
      if c = '"' then
        match parseStrBody (rest.length + 1) rest with
        | some (keyChars, cs2) =>
          match skipWs cs2 with
          | ':' :: cs3 =>
            match parseValue fuel (skipWs cs3) with
            | some (v, cs4) =>
              match skipWs cs4 with
              | ',' :: cs5 =>
                match parseObjItems fuel (skipWs cs5) with
                | some (kvs, r) => some ((⟨keyChars⟩, v) :: kvs, r)
                | none => none
              | c2 :: cs5 =>
                if c2 = rbrace then some ([(⟨keyChars⟩, v)], cs5) else none
              | [] => none
            | none => none
          | _ => none
        | none => none
      else none
    | [] => none

end

/-- The embedding of `JSON.parse`: parse a complete JSON text (leading and
trailing whitespace allowed, nothing else may remain); a syntax error is
`none`, which the callers' `try`/`catch` turns into `null`.  The fuel is
generous: the parser consumes at least one character per two fuel units. -/
def JSONparse (s : String) : Option Json :=
  match parseValue (2 * s.data.length + 4) (skipWs s.data) with
  | some (v, rest) => if (skipWs rest).isEmpty then some v else none
  | none => none

/-! ## Phase 1 / Phase 2 response parsing (`src/smart-sort.ts`) -/

/-- `Phase1Assignment`: project index (0 = no fit) and optional reasoning.
The `project` field is a JavaScript number, hence a rational here: the
source checks `typeof x === 'number'` and a range, not integrality. -/
structure Phase1Assignment where
  project : Rat
  reasoning : Option String := none
deriving Repr, DecidableEq

/-- `parsePhase1Entry`: a bare number in `[0, projectsLen]` becomes an
assignment without reasoning; an object (`typeof x === 'object'` and
truthy) with a numeric `project` field in range becomes an assignment
whose `reasoning` is kept only when it is a string that is nonempty after
trimming.  Arrays pass the `typeof` test in JavaScript but have no
`project` property, so they fall through to rejection like every other
shape. -/
def parsePhase1Entry (x : Json) (projectsLen : Nat) : Option Phase1Assignment :=
  match x with
  | Json.num q =>
    if 0 ≤ q ∧ q ≤ (projectsLen : Rat) then some { project := q } else none
  | Json.obj kvs =>
    match getField kvs "project" with
    | some (Json.num q) =>
      if 0 ≤ q ∧ q ≤ (projectsLen : Rat) then
        some { project := q
               reasoning :=
                 match getField kvs "reasoning" with
                 | some (Json.str s) => if jsTrim s = "" then none else some (jsTrim s)
                 | _ => none }
      else none
    | _ => none
  | _ => none

/-- The text-repair pipeline applied by `parsePhase1Response` before
`JSON.parse`: strip code fences, trim, relax trailing commas, close a
truncated array. -/
def phase1Clean (content : String) : String :=
  closeTruncatedArray (relaxJson (jsTrim (stripFences content)))

/-- `parsePhase1Response`: repair, parse as JSON, require an array of
exactly `tasksLen` entries, map `parsePhase1Entry` over it and reject the
whole array when any entry is rejected. -/
def parsePhase1Response (content : String) (tasksLen projectsLen : Nat) :
    Option (List Phase1Assignment) :=
  match JSONparse (phase1Clean content) with
  | some (Json.arr xs) =>
    if xs.length = tasksLen then
      let result := xs.map (fun x => parsePhase1Entry x projectsLen)
      if result.any (·.isNone) then none
      else some (result.filterMap id)
    else none
  | _ => none

/-- `Phase2Suggestion`: `task` and `suggestion` are validated strings; the
source casts the parsed objects, so `type` and `reasoning` are whatever
JSON values the fields held (or absent). -/
structure Phase2Suggestion where
  task : String
  suggestion : String
  type : Option Json := none
  reasoning : Option Json := none

/-- The element validation of `parsePhase2Response`: a truthy `object`
with string `task` and string `suggestion` fields. -/
def isPhase2EntryValid (x : Json) : Bool :=
  match x with
  | Json.obj kvs =>
    (match getField kvs "task" with
     | some (Json.str _) => true
     | _ => false) &&
    (match getField kvs "suggestion" with
     | some (Json.str _) => true
     | _ => false)
  | _ => false

/-- View of a validated Phase 2 element as a `Phase2Suggestion` (the
source's `as Phase2Suggestion[]` cast). -/
def toPhase2Suggestion (x : Json) : Phase2Suggestion :=
  match x with
  | Json.obj kvs =>
    { task := match getField kvs "task" with
              | some (Json.str s) => s
              | _ => ""
      suggestion := match getField kvs "suggestion" with
                    | some (Json.str s) => s
                    | _ => ""
      type := getField kvs "type"
      reasoning := getField kvs "reasoning" }
  | _ => { task := "", suggestion := "" }

/-- `parsePhase2Response`: strip fences, trim, relax commas (no truncated
array closing here), parse as JSON, require an array all of whose
elements validate, and return the suggestions. -/
def parsePhase2Response (content : String) : Option (List Phase2Suggestion) :=
  let cleaned := relaxJson (jsTrim (stripFences content))
  match JSONparse cleaned with
  | some (Json.arr xs) =>
    if xs.all isPhase2EntryValid then some (xs.map toPhase2Suggestion) else none
  | _ => none

/-! ## Data model of a run (`src/omnifocus.ts`, `src/llm.ts`,
`src/settings.ts`) -/

/-- A task from the external store (`OmniFocusTask`): the interface
declares `note` as a required string, so the source's defensive
`task.note ?? ''` is the identity here. -/
structure OmniFocusTask where
  name : String
  id : String
  note : String
  completed : Option Bool := none
deriving Repr, DecidableEq

/-- A project or area descriptor as returned by
`fetchProjectsWithNotes`. -/
structure ProjectInfo where
  name : String
  note : String
deriving Repr, DecidableEq

/-- Page/video metadata returned by `fetchMetadata` (`description` is
`string | null`). -/
structure UrlMetadata where
  title : String
  description : Option String := none
deriving Repr, DecidableEq

/-- The kind of a Smart Sort suggestion item. -/
inductive SmartSortItemKind where
  | existing : SmartSortItemKind
  | project : SmartSortItemKind
  | area : SmartSortItemKind
deriving Repr, DecidableEq

/-- `SmartSortItem`: one accept/decline suggestion.  `reasoning` carries
whatever JSON value the model supplied (the source's type says `string`
but Phase 2 items receive the uncast field). -/
structure SmartSortItem where
  taskId : String
  taskName : String
  projectName : String
  type : SmartSortItemKind
  reasoning : Option Json := none

/-- `SmartSortResult` as returned to the block UI. -/
structure SmartSortResult where
  items : List SmartSortItem
  processedCount : Nat
  totalCount : Nat
  error : Option String := none

/-- LLM provider selector. -/
inductive LLMProvider where
  | openrouter : LLMProvider
  | openai : LLMProvider
  | ollama : LLMProvider
  | custom : LLMProvider
deriving Repr, DecidableEq

/-- `LLMConfig` (`apiKey` is a required string, `baseUrl` and `model` are
optional). -/
structure LLMConfig where
  provider : LLMProvider
  apiKey : String
  baseUrl : Option String := none
  model : Option String := none
deriving Repr, DecidableEq

/-- `isLLMConfigured` from `src/llm.ts`: OpenRouter/OpenAI need a
nonempty-after-trim API key, `custom` needs a nonempty base URL, Ollama is
always configured. -/
def isLLMConfigured (config : LLMConfig) : Bool :=
  match config.provider with
  | LLMProvider.openrouter => jsTrim config.apiKey != ""
  | LLMProvider.openai => jsTrim config.apiKey != ""
  | LLMProvider.custom => ((config.baseUrl.map jsTrim).getD "") != ""
  | LLMProvider.ollama => true

/-- The slice of `PluginSettings` the Smart Sort entry point reads.
`smartSortMaxTasksPerBatch` is optional here to model the source's
`?? 10` guard for settings persisted before the field existed. -/
structure PluginSettings where
  llmModel : String
  llmModelOverrideSmartSort : String
  smartSortAdditionalContext : String := ""
  smartSortMaxTasksPerBatch : Option Nat := some 10
deriving Repr, DecidableEq

/-- `getLLMModel settings 'smartSort'` from `src/settings.ts`: the
trimmed feature override, or the trimmed default model when the override
is empty. -/
def getLLMModel (settings : PluginSettings) : String :=
  let defaultModel := jsTrim settings.llmModel
  let override := jsTrim settings.llmModelOverrideSmartSort
  if override != "" then override else defaultModel

/-- One external call performed by a run, for the trace. -/
inductive ExtCall where
  | fetchProjects : ExtCall
  | fetchTasksInbox : ExtCall
  | metaFetch : String → ExtCall
  | storeUpdate : String → String → String → ExtCall
  | chat : Nat → ExtCall
deriving Repr, DecidableEq

/-- The environment of one run: outcomes of every external collaborator.
`Except.error` models a thrown exception.  `fetchMeta` is total with
`Option` because `fetchMetadata` in `src/url-metadata.ts` catches every
failure internally and returns `null`.  URL detection
(`extractUrlFromTask`) delegates to the host's WHATWG URL parser, so it
is an oracle here.  Chat replies are per-call oracles; the prompt text
influences no claim and is not modelled. -/
structure SmartSortEnv where
  projectsR : Except String (List ProjectInfo)
  tasksR : Except String (List OmniFocusTask)
  extractUrl : String → String → Option String
  fetchMeta : String → Option UrlMetadata
  updateThrows : String → String → String → Bool
  phase1 : Except String String
  phase1Retry : Except String String
  phase2 : Except String String

/-! ## Concurrency-bounded preprocessor -/

/-- The fixed preprocessing concurrency. -/
def CONCURRENCY : Nat := 3

/-- Chunked execution: take `c` items, run them (a chunk's results keep
input order, as `Promise.all` does), continue with the rest.  Fuel is the
item count; with a positive chunk size at least one item is consumed per
step, so the fuel never runs out. -/
def runWithConcurrencyGo (fn : α → β) (c : Nat) : Nat → List α → List β
  | _, [] => []
  | 0, _ => []
  | Nat.succ fuel, l => (l.take c).map fn ++ runWithConcurrencyGo fn c fuel (l.drop c)

/-- `runWithConcurrency` from `src/smart-sort.ts` (value-level: with a
pure per-item function the chunking does not change the result list). -/
def runWithConcurrency (fn : α → β) (c : Nat) (items : List α) : List β :=
  runWithConcurrencyGo fn c items.length items

/-- Enrichment of a single task: detect a URL, fetch metadata, rewrite
name and note, persist via `updateTask`.  The `updateTask` call is inside
`try`/`catch` whose handler only logs, so the returned task is the same
whether or not the store update throws; the task passes through
unmodified when no URL is found or the metadata fetch fails.  Returns the
task together with the external calls made. -/
def preprocessOne (env : SmartSortEnv) (task : OmniFocusTask) :
    OmniFocusTask × List ExtCall :=
  match env.extractUrl task.name task.note with
  | none => (task, [])
  | some url =>
    match env.fetchMeta url with
    | none => (task, [ExtCall.metaFetch url])
    | some meta =>
      let noteWithoutUrl : String :=
        let t := jsTrim ⟨dropFirstOcc url.data task.note.data⟩
        ⟨collapseWs t.data.length t.data⟩
      let newNote :=
        String.intercalate " "
          (([meta.description, some url, some noteWithoutUrl].filterMap id).filter
            (fun s => s != ""))
      -- `await updateTask(...)` runs inside `try`/`catch`; the handler only
      -- logs, so a throwing store update falls through to the very same
      -- return value as a successful one.
      match (if env.updateThrows task.id meta.title newNote
             then Except.error () else Except.ok () : Except Unit Unit) with
      | Except.error _ =>
        ({ task with name := meta.title, note := newNote },
         [ExtCall.metaFetch url, ExtCall.storeUpdate task.id meta.title newNote])
      | Except.ok _ =>
        ({ task with name := meta.title, note := newNote },
         [ExtCall.metaFetch url, ExtCall.storeUpdate task.id meta.title newNote])

/-- `preprocessTasks`: enrich the batch with concurrency `CONCURRENCY`;
returns the enriched tasks in input order and the trace. -/
def preprocessTasks (env : SmartSortEnv) (tasks : List OmniFocusTask) :
    List OmniFocusTask × List ExtCall :=
  let rs := runWithConcurrency (preprocessOne env) CONCURRENCY tasks
  (rs.map Prod.fst, (rs.map Prod.snd).flatten)

/-! ## Phase 1 item resolution and Phase 2 merging -/

/-- Decimal digits of the fractional part `rem / d`, most significant
first, stopping when the remainder vanishes (every number producible by
the JSON parser is a finite decimal) or the fuel runs out. -/
def fracDigits (d : Nat) : Nat → Nat → List Char
  | _, 0 => []
  | 0, _ => []
  | Nat.succ fuel, rem =>
    let rem10 := rem * 10
    Char.ofNat (48 + rem10 / d) :: fracDigits d fuel (rem10 % d)

/-- Template-string rendering of a JavaScript number, as used by the
`Project ${idx}` fallback label: integers print as integers, finite
decimals with a decimal point (exponent display for huge magnitudes is
not modelled; the fallback is only reachable for a fractional or
out-of-sync index). -/
def ratToJsString (q : Rat) : String :=
  let sign := if q.num < 0 then "-" else ""
  let n := q.num.natAbs
  if q.den = 1 then sign ++ toString n
  else
    sign ++ toString (n / q.den) ++ "." ++ ⟨fracDigits q.den 400 (n % q.den)⟩

/-- JavaScript array indexing `l[q - 1]` with a number index `q`: an
element when `q - 1` is an integer in range, `undefined` otherwise (the
subtraction is performed on `q.num` since an integral `q - 1` needs
`q.den = 1`). -/
def jsIndexPred (l : List α) (q : Rat) : Option α :=
  if q.den = 1 ∧ 0 ≤ q.num - 1 then l.get? (q.num - 1).toNat else none

/-- The item built for task `i` when its assignment index resolves inside
the project list (`projects[idx - 1]?.name ?? 'Project ' + idx`). -/
def mkExistingItem (task : OmniFocusTask) (a : Option Phase1Assignment)
    (idx : Rat) (projects : List ProjectInfo) : SmartSortItem :=
  { taskId := task.id
    taskName := task.name
    projectName := ((jsIndexPred projects idx).map ProjectInfo.name).getD
      ("Project " ++ ratToJsString idx)
    type := SmartSortItemKind.existing
    reasoning := (a.bind Phase1Assignment.reasoning).map Json.str }

/-- The loop body of `buildPhase1Items`: walk the task batch positionally
(`i` is the index into the assignment array), emitting an `existing` item
when `assignments[i]?.project ?? 0` lies in `(0, projects.length]` and
collecting the task into the no-fit list otherwise. -/
def buildPhase1Go (as : List Phase1Assignment) (projects : List ProjectInfo) :
    List OmniFocusTask → Nat → List SmartSortItem × List OmniFocusTask
  | [], _ => ([], [])
  | task :: rest, i =>
    let a := as.get? i
    let idx := (a.map Phase1Assignment.project).getD 0
    let (restItems, restNoFit) := buildPhase1Go as projects rest (i + 1)
    if 0 < idx ∧ idx ≤ ((projects.length : Nat) : Rat) then
      (mkExistingItem task a idx projects :: restItems, restNoFit)
    else
      (restItems, task :: restNoFit)

/-- `buildPhase1Items` from `src/smart-sort.ts`: with no assignments both
lists are empty; otherwise split the batch into `existing` items and
no-fit tasks. -/
def buildPhase1Items (assignments : Option (List Phase1Assignment))
    (tasks : List OmniFocusTask) (projects : List ProjectInfo) :
    List SmartSortItem × List OmniFocusTask :=
  match assignments with
  | none => ([], [])
  | some as => buildPhase1Go as projects tasks 0

/-- The Phase 2 name-matching predicate: case-insensitive equality of the
trimmed task name with the trimmed suggestion `task` text. -/
def phase2NameMatches (t : OmniFocusTask) (s : Phase2Suggestion) : Bool :=
  jsToLower (jsTrim t.name) == jsToLower (jsTrim s.task)

/-- The item appended for one matched Phase 2 suggestion: `type` is
`area` exactly when the raw field is the string `area`, else `project`. -/
def mkPhase2Item (t : OmniFocusTask) (s : Phase2Suggestion) : SmartSortItem :=
  { taskId := t.id
    taskName := t.name
    projectName := s.suggestion
    type :=
      match s.type with
      | some (Json.str ty) =>
        if ty = "area" then SmartSortItemKind.area else SmartSortItemKind.project
      | _ => SmartSortItemKind.project
    reasoning := s.reasoning }

/-- The suggestion loop of `runPhase2`: for each suggestion in order,
`find` the first no-fit task whose name matches and push an item;
unmatched suggestions are dropped. -/
def phase2Merge (noFitTasks : List OmniFocusTask)
    (suggestions : List Phase2Suggestion) : List SmartSortItem :=
  suggestions.filterMap (fun s =>
    (noFitTasks.find? (fun t => phase2NameMatches t s)).map (fun t => mkPhase2Item t s))

/-! ## Orchestration (`runPhase1`, `runPhase2`, `smartSort`) -/

/-- The parse-or-retry logic of `runPhase1`: one chat call, parse; on
parse failure exactly one retry call, parse again.  A chat exception
propagates (there is no `try`/`catch` around either `simpleChat` call).
Returns the effective assignments together with the first call's raw
content (which is what the caller surfaces on failure). -/
def runPhase1Model (env : SmartSortEnv) (tasksLen projectsLen : Nat) :
    Except String (Option (List Phase1Assignment) × String) :=
  match env.phase1 with
  | Except.error e => Except.error e
  | Except.ok phase1Content =>
    match parsePhase1Response phase1Content tasksLen projectsLen with
    | some as => Except.ok (some as, phase1Content)
    | none =>
      match env.phase1Retry with
      | Except.error e => Except.error e
      | Except.ok retryContent =>
        Except.ok (parsePhase1Response retryContent tasksLen projectsLen, phase1Content)

/-- The number of chat calls Phase 1 performed (for the trace). -/
def phase1ChatCalls (env : SmartSortEnv) (tasksLen projectsLen : Nat) : List ExtCall :=
  match env.phase1 with
  | Except.error _ => [ExtCall.chat 1]
  | Except.ok phase1Content =>
    match parsePhase1Response phase1Content tasksLen projectsLen with
    | some _ => [ExtCall.chat 1]
    | none => [ExtCall.chat 1, ExtCall.chat 1]

/-- `runPhase2` from `src/smart-sort.ts`: one chat call.  A thrown chat
error is caught and returned as a `Phase 2 failed` result that keeps the
Phase 1 items; a parse failure likewise keeps the items and surfaces the
raw content; on success the matched suggestions are appended. -/
def runPhase2Model (env : SmartSortEnv) (noFitTasks : List OmniFocusTask)
    (items : List SmartSortItem) (tasksLen totalCount : Nat) : SmartSortResult :=
  match env.phase2 with
  | Except.error e =>
    { items := items
      processedCount := tasksLen
      totalCount := totalCount
      error := some ("Phase 2 failed: " ++ e) }
  | Except.ok phase2Content =>
    match parsePhase2Response phase2Content with
    | none =>
      { items := items
        processedCount := tasksLen
        totalCount := totalCount
        error := some ("Parse failed; raw Phase 2 output: " ++
          (if jsTrim phase2Content = "" then "(empty response from LLM)" else phase2Content)) }
    | some suggestions =>
      { items := items ++ phase2Merge noFitTasks suggestions
        processedCount := tasksLen
        totalCount := totalCount }

/-- The capped, preprocessed task batch a run works on. -/
def smartSortTasks (settings : PluginSettings) (env : SmartSortEnv)
    (rawTasks : List OmniFocusTask) : List OmniFocusTask :=
  (preprocessTasks env rawTasks).fst.take (settings.smartSortMaxTasksPerBatch.getD 10)

/-- The tail of `smartSort` once projects and tasks are in hand. -/
def smartSortAfterFetch (settings : PluginSettings) (env : SmartSortEnv)
    (projects : List ProjectInfo) (rawTasks : List OmniFocusTask) :
    Except String SmartSortResult × List ExtCall :=
  let preCalls := (preprocessTasks env rawTasks).snd
  let tasks := smartSortTasks settings env rawTasks
  if tasks.isEmpty then
    (Except.ok { items := []
                 processedCount := 0
                 totalCount := rawTasks.length
                 error := some "No inbox tasks to sort." }, preCalls)
  else
    match runPhase1Model env tasks.length projects.length with
    | Except.error e =>
      (Except.error e, preCalls ++ phase1ChatCalls env tasks.length projects.length)
    | Except.ok (assignments, phase1Content) =>
      let chatCalls := phase1ChatCalls env tasks.length projects.length
      let items := (buildPhase1Items assignments tasks projects).fst
      let noFitTasks := (buildPhase1Items assignments tasks projects).snd
      match assignments with
      | none =>
        (Except.ok { items := []
                     processedCount := tasks.length
                     totalCount := rawTasks.length
                     error := some ("Parse failed; raw Phase 1 output: " ++
                       (if jsTrim phase1Content = "" then "(empty response from LLM)"
                        else phase1Content)) },
         preCalls ++ chatCalls)
      | some _ =>
        if noFitTasks.isEmpty then
          (Except.ok { items := items
                       processedCount := tasks.length
                       totalCount := rawTasks.length },
           preCalls ++ chatCalls)
        else
          (Except.ok (runPhase2Model env noFitTasks items tasks.length rawTasks.length),
           preCalls ++ chatCalls ++ [ExtCall.chat 2])

/-- `smartSort` from `src/smart-sort.ts` as a pure run: resolve the
effective model, override the config's model with it, fail fast on a
configuration error (before any store or chat interaction — the trace is
empty), fetch projects and inbox tasks concurrently (a rejection of
either propagates), preprocess and cap the batch, short-circuit an empty
batch, run Phase 1 (whose chat exceptions propagate), and either return
the Phase 1 items or run Phase 2 for the no-fit tasks. -/
def smartSortRun (ctxConfig : LLMConfig) (settings : PluginSettings)
    (env : SmartSortEnv) : Except String SmartSortResult × List ExtCall :=
  let effectiveModel := getLLMModel settings
  let config := { ctxConfig with model := some effectiveModel }
  if !(isLLMConfigured config) then
    (Except.error "LLM is not configured. Set API key or base URL in plugin settings.", [])
  else if effectiveModel = "" then
    (Except.error
      "No model selected for Smart Sort. Set Default model or Smart sort override in plugin settings.",
     [])
  else
    let fetchCalls := [ExtCall.fetchProjects, ExtCall.fetchTasksInbox]
    match env.projectsR, env.tasksR with
    | Except.error e, _ => (Except.error e, fetchCalls)
    | Except.ok _, Except.error e => (Except.error e, fetchCalls)
    | Except.ok projects, Except.ok rawTasks =>
      ((smartSortAfterFetch settings env projects rawTasks).fst,
       fetchCalls ++ (smartSortAfterFetch settings env projects rawTasks).snd)

/-! ## Theorems -/

/-- Whether the trailing-comma pattern (a comma, optional whitespace, then
a closing bracket or brace) matches right after a given position. -/
def commaCloserAt (rest : List Char) : Bool :=
  ((rest.drop (wsRunLen rest)).head? == some ']') ||
  ((rest.drop (wsRunLen rest)).head? == some rbrace)

/-- Whether the trailing-comma pattern matches anywhere in the text. -/
def hasCommaCloser : List Char → Bool
  | [] => false
  | c :: rest => (c == ',' && commaCloserAt rest) || hasCommaCloser rest

lemma hasCommaCloser_cons_false {c : Char} {rest : List Char}
    (h : hasCommaCloser (c :: rest) = false) :
    (c = ',' → commaCloserAt rest = false) ∧ hasCommaCloser rest = false := by
  simp only [hasCommaCloser, Bool.or_eq_false_iff, Bool.and_eq_false_iff,
    beq_eq_false_iff_ne, ne_eq] at h
  constructor
  · intro hc
    rcases h.1 with h1 | h1
    · exact absurd hc h1
    · exact h1
  · exact h.2

lemma relaxPassGo_eq_self (close : Char) (hc : close = ']' ∨ close = rbrace) :
    ∀ (fuel : Nat) (cs : List Char), hasCommaCloser cs = false → cs.length ≤ fuel →
      relaxPassGo close fuel cs = cs := by
  intro fuel
  induction fuel with
  | zero =>
    intro cs h hlen
    cases cs with
    | nil => rfl
    | cons c rest => simp at hlen
  | succ n ih =>
    intro cs h hlen
    cases cs with
    | nil => rfl
    | cons c rest =>
      obtain ⟨hmatch, hrest⟩ := hasCommaCloser_cons_false h
      simp only [relaxPassGo]
      split_ifs with h1 h2
      · exfalso
        have hat := hmatch h1
        simp only [commaCloserAt, Bool.or_eq_false_iff, beq_eq_false_iff_ne, ne_eq] at hat
        rcases hc with rfl | rfl
        · exact hat.1 h2
        · exact hat.2 h2
      · rw [ih rest hrest (by simpa using Nat.le_of_succ_le_succ hlen)]
      · rw [ih rest hrest (by simpa using Nat.le_of_succ_le_succ hlen)]

/-- **C6** (corrected).  `relaxJson` deletes a comma that appears
immediately before a closing bracket or brace across whitespace
(witnessed by the spec's own examples), and any text containing no such
comma-closer sequence — in particular valid JSON free of that character
sequence — is returned unchanged, making `relaxJson` idempotent on such
input.  The original claim's stronger promise that *every* valid JSON
text is unchanged fails, because the regex is not string-literal aware
(see the counterexample). -/
theorem relaxJson_deletes_and_fixes_clean :
    (relaxJson "[1, 2, ]" = "[1, 2]") ∧
    (relaxJson "\x7b\"a\":1,\x7d" = "\x7b\"a\":1\x7d") ∧
    (∀ s : String, hasCommaCloser s.data = false →
      relaxJson s = s ∧ relaxJson (relaxJson s) = relaxJson s) := by
  refine ⟨by decide, by decide, ?_⟩
  intro s h
  have hself : relaxJson s = s := by
    simp only [relaxJson]
    rw [relaxPassGo_eq_self ']' (Or.inl rfl) s.data.length s.data h (Nat.le_refl _)]
    rw [relaxPassGo_eq_self rbrace (Or.inr rfl) s.data.length s.data h (Nat.le_refl _)]
  exact ⟨hself, by rw [hself, hself]⟩

/-- Witness for C6: the clean-input clause applied at `"[1,2]"`. -/
theorem relaxJson_deletes_and_fixes_clean_witness :
    relaxJson "[1,2]" = "[1,2]" ∧ relaxJson (relaxJson "[1,2]") = relaxJson "[1,2]" :=
  relaxJson_deletes_and_fixes_clean.2.2 "[1,2]" (by decide)

/-- **C6** counterexample: the text `[",]"]` is valid JSON (an array
holding the two-character string `,]`), yet `relaxJson` rewrites it —
the comma-closer regex is applied inside the string literal. -/
theorem relaxJson_changes_valid_json :
    (JSONparse "[\",]\"]").isSome = true ∧ relaxJson "[\",]\"]" ≠ "[\",]\"]" := by
  constructor
  · rfl
  · decide

lemma parsePhase1Response_none_of_entry (content : String) (tasksLen projectsLen : Nat)
    (xs : List Json) (hparse : JSONparse (phase1Clean content) = some (Json.arr xs))
    {x : Json} (hx : x ∈ xs) (hnone : parsePhase1Entry x projectsLen = none) :
    parsePhase1Response content tasksLen projectsLen = none := by
  simp only [parsePhase1Response, hparse]
  by_cases hlen : xs.length = tasksLen
  · rw [if_pos hlen]
    have hany : (xs.map (fun x => parsePhase1Entry x projectsLen)).any (·.isNone) = true := by
      rw [List.any_eq_true]
      exact ⟨none, List.mem_map.mpr ⟨x, hx, hnone⟩, rfl⟩
    simp only [hany, if_true]
  · rw [if_neg hlen]

/-- **C1** (confirmed).  Whenever the repaired text parses to a JSON
array whose length differs from `taskCount`, or to an array containing an
element whose `project` value (a bare number, or the `project` field of
an object) lies outside `[0, projectCount]`, `parsePhase1Response`
returns `null` — never a partial or truncated assignment array. -/
theorem parsePhase1_fail_closed (content : String) (tasksLen projectsLen : Nat)
    (xs : List Json) (hparse : JSONparse (phase1Clean content) = some (Json.arr xs))
    (hbad : xs.length ≠ tasksLen ∨
      ∃ x ∈ xs, ∃ q : Rat,
        (x = Json.num q ∨ ∃ kvs, x = Json.obj kvs ∧ getField kvs "project" = some (Json.num q)) ∧
        (q < 0 ∨ (projectsLen : Rat) < q)) :
    parsePhase1Response content tasksLen projectsLen = none := by
  rcases hbad with hlen | ⟨x, hx, q, hshape, hrange⟩
  · simp only [parsePhase1Response, hparse, if_neg hlen]
  · apply parsePhase1Response_none_of_entry content tasksLen projectsLen xs hparse hx
    have hnotin : ¬ (0 ≤ q ∧ q ≤ (projectsLen : Rat)) := by
      rintro ⟨h0, h1⟩
      rcases hrange with h | h
      · exact absurd h (not_lt.mpr h0)
      · exact absurd h (not_lt.mpr h1)
    rcases hshape with rfl | ⟨kvs, rfl, hfield⟩
    · simp only [parsePhase1Entry, if_neg hnotin]
    · simp only [parsePhase1Entry, hfield, if_neg hnotin]

/-- Witness for C1: a length mismatch and an out-of-range index both
yield `null` on concrete inputs. -/
theorem parsePhase1_fail_closed_witness :
    parsePhase1Response "[5]" 1 2 = none ∧ parsePhase1Response "[1]" 2 2 = none := by
  constructor
  · exact parsePhase1_fail_closed "[5]" 1 2 [Json.num 5] (by rfl)
      (Or.inr ⟨Json.num 5, List.mem_singleton.mpr rfl, 5, Or.inl rfl, Or.inr (by norm_num)⟩)
  · exact parsePhase1_fail_closed "[1]" 2 2 [Json.num 1] (by rfl) (Or.inl (by decide))

/-- **C7** (corrected, rejection part).  Any array element that is
neither a number nor an object carrying a numeric `project` field makes
`parsePhase1Response` reject the whole array.  The original claim's
integrality requirement does not hold: the source checks
`typeof x === 'number'` and a range only, so a fractional number in range
is accepted (see the counterexample). -/
theorem parsePhase1_rejects_bad_shape (content : String) (tasksLen projectsLen : Nat)
    (xs : List Json) (hparse : JSONparse (phase1Clean content) = some (Json.arr xs))
    (hbad : ∃ x ∈ xs, (∀ q : Rat, x ≠ Json.num q) ∧
      ∀ kvs, x = Json.obj kvs → ∀ q : Rat, getField kvs "project" ≠ some (Json.num q)) :
    parsePhase1Response content tasksLen projectsLen = none := by
  obtain ⟨x, hx, hnum, hobj⟩ := hbad
  apply parsePhase1Response_none_of_entry content tasksLen projectsLen xs hparse hx
  cases x with
  | num q => exact absurd rfl (hnum q)
  | obj kvs =>
    cases hgf : getField kvs "project" with
    | none => simp [parsePhase1Entry, hgf]
    | some v =>
      cases v with
      | num q => exact absurd hgf (hobj kvs rfl q)
      | null => simp [parsePhase1Entry, hgf]
      | bool b => simp [parsePhase1Entry, hgf]
      | str s => simp [parsePhase1Entry, hgf]
      | arr l => simp [parsePhase1Entry, hgf]
      | obj l => simp [parsePhase1Entry, hgf]
  | null => rfl
  | bool b => rfl
  | str s => rfl
  | arr l => rfl

/-- Witness for C7's amended rejection clause: a boolean element poisons
the whole array. -/
theorem parsePhase1_rejects_bad_shape_witness :
    parsePhase1Response "[true]" 1 1 = none :=
  parsePhase1_rejects_bad_shape "[true]" 1 1 [Json.bool true] (by rfl)
    ⟨Json.bool true, List.mem_singleton.mpr rfl,
      fun _ h => Json.noConfusion h, fun _ h => Json.noConfusion h⟩

/-- **C7** counterexample: `1.5` is not an integer, lies in `[0, 2]`, and
the claim demands rejection of the whole array — but the source accepts
it and preserves the fractional value. -/
theorem parsePhase1_accepts_noninteger :
    parsePhase1Response "[1.5]" 1 2 = some [{ project := mkRat 3 2, reasoning := none }] := by
  decide

lemma any_isNone_eq_false {α : Type _} {l : List (Option α)}
    (h : ∀ o ∈ l, o.isSome) : l.any (·.isNone) = false := by
  rw [List.any_eq_false]
  intro o ho
  have := h o ho
  cases o with
  | none => simp at this
  | some a => simp

lemma filterMap_id_all_some {α : Type _} (d : α) :
    ∀ (l : List (Option α)), (∀ o ∈ l, o.isSome) →
      l.filterMap id = l.map (fun o => o.getD d) := by
  intro l
  induction l with
  | nil => intro _; rfl
  | cons o rest ih =>
    intro h
    cases o with
    | none =>
      have := h none (List.mem_cons_self _ _)
      simp at this
    | some a =>
      simp only [List.filterMap_cons, id_eq, List.map_cons, Option.getD_some]
      rw [ih (fun o ho => h o (List.mem_cons_of_mem _ ho))]

/-- **C2** (confirmed).  When the repaired text parses to an array of
exactly `taskCount` elements, each a number in `[0, projectCount]` or an
object whose `project` field is a number in that range,
`parsePhase1Response` returns an assignment array of the same length,
element for element in the same order, with each `project` value
preserved, each string `reasoning` trimmed (dropped when empty after
trimming, and whenever it is not a string), and no reasoning for
bare-number elements. -/
theorem parsePhase1_success_shape (content : String) (tasksLen projectsLen : Nat)
    (xs : List Json)
    (hparse : JSONparse (phase1Clean content) = some (Json.arr xs))
    (hlen : xs.length = tasksLen)
    (hgood : ∀ x ∈ xs,
      (∃ q : Rat, x = Json.num q ∧ 0 ≤ q ∧ q ≤ (projectsLen : Rat)) ∨
      (∃ kvs, ∃ q : Rat, x = Json.obj kvs ∧
        getField kvs "project" = some (Json.num q) ∧ 0 ≤ q ∧ q ≤ (projectsLen : Rat))) :
    ∃ ys, parsePhase1Response content tasksLen projectsLen = some ys ∧
      ys.length = xs.length ∧
      ∀ (i : Nat) (hi : i < xs.length) (hy : i < ys.length),
        (∀ q : Rat, xs.get ⟨i, hi⟩ = Json.num q →
          ys.get ⟨i, hy⟩ = { project := q, reasoning := none }) ∧
        (∀ kvs, xs.get ⟨i, hi⟩ = Json.obj kvs →
          (∀ q : Rat, getField kvs "project" = some (Json.num q) →
            (ys.get ⟨i, hy⟩).project = q) ∧
          ((ys.get ⟨i, hy⟩).reasoning =
            match getField kvs "reasoning" with
            | some (Json.str s) => if jsTrim s = "" then none else some (jsTrim s)
            | _ => none)) := by
  have hsome : ∀ o ∈ xs.map (fun x => parsePhase1Entry x projectsLen), o.isSome := by
    intro o ho
    obtain ⟨x, hx, rfl⟩ := List.mem_map.mp ho
    rcases hgood x hx with ⟨q, rfl, hr⟩ | ⟨kvs, q, rfl, hf, hr⟩
    · simp [parsePhase1Entry, if_pos hr]
    · simp [parsePhase1Entry, hf, if_pos hr]
  have hresp : parsePhase1Response content tasksLen projectsLen =
      some (xs.map (fun x => (parsePhase1Entry x projectsLen).getD { project := 0 })) := by
    simp only [parsePhase1Response, hparse, if_pos hlen, any_isNone_eq_false hsome,
      Bool.false_eq_true, if_false]
    rw [filterMap_id_all_some { project := 0 } _ hsome, List.map_map]
    rfl
  refine ⟨_, hresp, by simp, ?_⟩
  intro i hi hy
  have hmem : xs.get ⟨i, hi⟩ ∈ xs := List.get_mem xs i hi
  have hget : (xs.map (fun x => (parsePhase1Entry x projectsLen).getD { project := 0 })).get
      ⟨i, hy⟩ = (parsePhase1Entry (xs.get ⟨i, hi⟩) projectsLen).getD { project := 0 } := by
    simp [List.get_eq_getElem, List.getElem_map]
  constructor
  · intro q hq
    rw [hget, hq]
    rcases hgood _ hmem with ⟨q', heq, hr⟩ | ⟨kvs, q', heq, hf, hr⟩
    · rw [hq] at heq
      cases heq
      simp [parsePhase1Entry, if_pos hr]
    · rw [hq] at heq
      exact Json.noConfusion heq
  · intro kvs hkvs
    rw [hget, hkvs]
    rcases hgood _ hmem with ⟨q', heq, hr⟩ | ⟨kvs', q', heq, hf, hr⟩
    · rw [hkvs] at heq
      exact Json.noConfusion heq
    · rw [hkvs] at heq
      cases heq
      constructor
      · intro q hfq
        rw [hf] at hfq
        have : q' = q := by
          have := Option.some.inj hfq
          exact (Json.num.inj this)
        subst this
        simp [parsePhase1Entry, hf, if_pos hr]
      · simp [parsePhase1Entry, hf, if_pos hr]

/-- Witness for C2: a two-element array of bare numbers yields a
two-element assignment array. -/
theorem parsePhase1_success_shape_witness :
    ∃ ys, parsePhase1Response "[1,0]" 2 3 = some ys ∧ ys.length = 2 := by
  have hgood : ∀ x ∈ [Json.num 1, Json.num 0],
      (∃ q : Rat, x = Json.num q ∧ 0 ≤ q ∧ q ≤ ((3 : Nat) : Rat)) ∨
      (∃ kvs, ∃ q : Rat, x = Json.obj kvs ∧
        getField kvs "project" = some (Json.num q) ∧ 0 ≤ q ∧ q ≤ ((3 : Nat) : Rat)) := by
    intro x hx
    simp only [List.mem_cons, List.not_mem_nil, or_false] at hx
    rcases hx with rfl | rfl
    · exact Or.inl ⟨1, rfl, by norm_num⟩
    · exact Or.inl ⟨0, rfl, by norm_num⟩
  obtain ⟨ys, h1, h2, _⟩ := parsePhase1_success_shape "[1,0]" 2 3 [Json.num 1, Json.num 0]
    (by rfl) rfl hgood
  exact ⟨ys, h1, h2⟩

lemma runWithConcurrencyGo_eq_map (fn : α → β) (c : Nat) (hc : 0 < c) :
    ∀ (fuel : Nat) (xs : List α), xs.length ≤ fuel →
      runWithConcurrencyGo fn c fuel xs = xs.map fn := by
  intro fuel
  induction fuel with
  | zero =>
    intro xs h
    cases xs with
    | nil => rfl
    | cons x rest => simp at h
  | succ n ih =>
    intro xs h
    cases xs with
    | nil => rfl
    | cons x rest =>
      simp only [runWithConcurrencyGo]
      have hlen : ((x :: rest).drop c).length ≤ n := by
        simp only [List.length_drop, List.length_cons]
        simp only [List.length_cons] at h
        omega
      rw [ih ((x :: rest).drop c) hlen]
      rw [← List.map_append, List.take_append_drop]

lemma runWithConcurrency_eq_map (fn : α → β) (c : Nat) (hc : 0 < c) (xs : List α) :
    runWithConcurrency fn c xs = xs.map fn :=
  runWithConcurrencyGo_eq_map fn c hc xs.length xs (Nat.le_refl _)

lemma preprocessTasks_fst (env : SmartSortEnv) (ts : List OmniFocusTask) :
    (preprocessTasks env ts).fst = ts.map (fun t => (preprocessOne env t).fst) := by
  simp only [preprocessTasks,
    runWithConcurrency_eq_map (preprocessOne env) CONCURRENCY (by norm_num [CONCURRENCY]) ts,
    List.map_map]
  rfl

/-- **C5** (corrected).  The preprocessor returns a batch of the same
length with elements positionally derived from the input (same order); a
task with no detected URL, or whose metadata fetch fails (returns
`null`), passes through unmodified; and a store-update (`updateTask`)
failure neither aborts the batch nor raises — but it does *not* restore
the original task: the result is independent of the update outcome, so
the failing task is still returned with the URL-derived name and note
(see the counterexample). -/
theorem preprocess_failure_isolation (env : SmartSortEnv) (tasks : List OmniFocusTask) :
    ((preprocessTasks env tasks).fst.length = tasks.length) ∧
    (∀ i : Nat, (preprocessTasks env tasks).fst.get? i =
      (tasks.get? i).map (fun t => (preprocessOne env t).fst)) ∧
    (∀ t url, env.extractUrl t.name t.note = some url → env.fetchMeta url = none →
      (preprocessOne env t).fst = t) ∧
    (∀ t, env.extractUrl t.name t.note = none → (preprocessOne env t).fst = t) ∧
    (∀ f, (preprocessTasks { env with updateThrows := f } tasks).fst =
      (preprocessTasks env tasks).fst) := by
  refine ⟨?_, ?_, ?_, ?_, ?_⟩
  · rw [preprocessTasks_fst]; simp
  · intro i
    rw [preprocessTasks_fst]
    simp [List.getElem?_map]
  · intro t url h1 h2
    simp [preprocessOne, h1, h2]
  · intro t h
    simp [preprocessOne, h]
  · intro f
    rw [preprocessTasks_fst, preprocessTasks_fst]
    apply List.map_congr_left
    intro t _
    simp only [preprocessOne]
    split
    · rfl
    · split
      · rfl
      · split <;> split <;> rfl

/-- A concrete environment for C5: the middle task's name is a URL whose
metadata resolves, and `updateTask` always throws. -/
def c5Env : SmartSortEnv :=
  { projectsR := Except.ok []
    tasksR := Except.ok []
    extractUrl := fun n _ => if n = "B" then some "http://x" else none
    fetchMeta := fun _ => some { title := "Fetched Title" }
    updateThrows := fun _ _ _ => true
    phase1 := Except.ok ""
    phase1Retry := Except.ok ""
    phase2 := Except.ok "" }

/-- Variant of `c5Env` whose metadata fetch fails. -/
def c5EnvNoMeta : SmartSortEnv :=
  { c5Env with fetchMeta := fun _ => none }

/-- First task of the C5 batch. -/
def c5Task1 : OmniFocusTask := { name := "A", id := "t1", note := "" }

/-- Second task of the C5 batch (the one whose store update fails). -/
def c5Task2 : OmniFocusTask := { name := "B", id := "t2", note := "" }

/-- Third task of the C5 batch. -/
def c5Task3 : OmniFocusTask := { name := "C", id := "t3", note := "" }

/-- Witness for C5: the no-URL clause and the metadata-failure clause at
concrete tasks, plus the length clause on a concrete batch. -/
theorem preprocess_failure_isolation_witness :
    (preprocessTasks c5EnvNoMeta [c5Task1, c5Task2, c5Task3]).fst.length = 3 ∧
    (preprocessOne c5EnvNoMeta c5Task2).fst = c5Task2 ∧
    (preprocessOne c5EnvNoMeta c5Task1).fst = c5Task1 := by
  have h := preprocess_failure_isolation c5EnvNoMeta [c5Task1, c5Task2, c5Task3]
  exact ⟨h.1, h.2.2.1 c5Task2 "http://x" (by rfl) (by rfl), h.2.2.2.1 c5Task1 (by rfl)⟩

/-- **C5** counterexample: `updateTask` throws for the middle task; the
batch still comes back with three tasks in order and nothing raised, but
the failing task is returned with the fetched title and rewritten note —
not "unmodified (original name and note)" as the claim states. -/
theorem preprocess_update_failure_keeps_rewrite :
    (preprocessTasks c5Env [c5Task1, c5Task2, c5Task3]).fst =
      [c5Task1, { name := "Fetched Title", id := "t2", note := "http://x" }, c5Task3] ∧
    ({ name := "Fetched Title", id := "t2", note := "http://x" } : OmniFocusTask) ≠ c5Task2 := by
  constructor
  · decide
  · decide

/-! ## Run-level lemmas -/

lemma isEmpty_false_of_ne_nil {α : Type _} {l : List α} (h : l ≠ []) : l.isEmpty = false := by
  cases l with
  | nil => exact absurd rfl h
  | cons a t => rfl

lemma buildPhase1Items_nil (as : List Phase1Assignment) (ps : List ProjectInfo) :
    buildPhase1Items (some as) [] ps = ([], []) := rfl

lemma smartSortRun_fst_ok {cfg : LLMConfig} {st : PluginSettings} {env : SmartSortEnv}
    {ps : List ProjectInfo} {ts : List OmniFocusTask} {r : SmartSortResult}
    {calls : List ExtCall}
    (hps : env.projectsR = Except.ok ps) (hts : env.tasksR = Except.ok ts)
    (hrun : smartSortRun cfg st env = (Except.ok r, calls)) :
    (smartSortAfterFetch st env ps ts).fst = Except.ok r := by
  simp only [smartSortRun, hps, hts] at hrun
  split_ifs at hrun with h1 h2
  · exact absurd (congrArg Prod.fst hrun) (by simp)
  · exact absurd (congrArg Prod.fst hrun) (by simp)
  · exact congrArg Prod.fst hrun

lemma smartSortRun_config_ok {cfg : LLMConfig} {st : PluginSettings} {env : SmartSortEnv}
    {ps : List ProjectInfo} {ts : List OmniFocusTask}
    (hconf : isLLMConfigured { cfg with model := some (getLLMModel st) } = true)
    (hmodel : getLLMModel st ≠ "")
    (hps : env.projectsR = Except.ok ps) (hts : env.tasksR = Except.ok ts) :
    smartSortRun cfg st env =
      ((smartSortAfterFetch st env ps ts).fst,
       [ExtCall.fetchProjects, ExtCall.fetchTasksInbox] ++
         (smartSortAfterFetch st env ps ts).snd) := by
  simp only [smartSortRun, hps, hts, hconf, Bool.not_true, Bool.false_eq_true, if_false,
    if_neg hmodel]

lemma smartSortAfterFetch_phase1_some {st : PluginSettings} {env : SmartSortEnv}
    {ps : List ProjectInfo} {ts : List OmniFocusTask} {as : List Phase1Assignment}
    {c1 : String}
    (hne : smartSortTasks st env ts ≠ [])
    (hp1 : runPhase1Model env (smartSortTasks st env ts).length ps.length =
      Except.ok (some as, c1)) :
    (smartSortAfterFetch st env ps ts).fst = Except.ok
      (if (buildPhase1Items (some as) (smartSortTasks st env ts) ps).snd.isEmpty then
        { items := (buildPhase1Items (some as) (smartSortTasks st env ts) ps).fst
          processedCount := (smartSortTasks st env ts).length
          totalCount := ts.length }
      else
        runPhase2Model env (buildPhase1Items (some as) (smartSortTasks st env ts) ps).snd
          (buildPhase1Items (some as) (smartSortTasks st env ts) ps).fst
          (smartSortTasks st env ts).length ts.length) := by
  simp only [smartSortAfterFetch, isEmpty_false_of_ne_nil hne, Bool.false_eq_true, if_false,
    hp1]
  split
  · rfl
  · rfl

/-- **C4** (confirmed).  When Phase 1 parsing succeeded and the run
reaches Phase 2 (the no-fit set is nonempty), a thrown Phase 2 chat call
or a Phase 2 parse failure still produces an `Except.ok` result (no
exception reaches the caller) that keeps all Phase-1-derived items, with
`error` set to a message identifying the Phase 2 failure or carrying the
raw Phase 2 text. -/
theorem phase2_failure_keeps_items (cfg : LLMConfig) (st : PluginSettings)
    (env : SmartSortEnv) (ps : List ProjectInfo) (ts : List OmniFocusTask)
    (as : List Phase1Assignment) (c1 : String)
    (hps : env.projectsR = Except.ok ps) (hts : env.tasksR = Except.ok ts)
    (hconf : isLLMConfigured { cfg with model := some (getLLMModel st) } = true)
    (hmodel : getLLMModel st ≠ "")
    (hp1 : runPhase1Model env (smartSortTasks st env ts).length ps.length =
      Except.ok (some as, c1))
    (hnofit : (buildPhase1Items (some as) (smartSortTasks st env ts) ps).snd ≠ [])
    (hfail : (∃ e, env.phase2 = Except.error e) ∨
      (∃ c2, env.phase2 = Except.ok c2 ∧ parsePhase2Response c2 = none)) :
    (smartSortRun cfg st env).fst = Except.ok
      { items := (buildPhase1Items (some as) (smartSortTasks st env ts) ps).fst
        processedCount := (smartSortTasks st env ts).length
        totalCount := ts.length
        error := some (match env.phase2 with
          | Except.error e => "Phase 2 failed: " ++ e
          | Except.ok c2 => "Parse failed; raw Phase 2 output: " ++
              (if jsTrim c2 = "" then "(empty response from LLM)" else c2)) } := by
  have hne : smartSortTasks st env ts ≠ [] := by
    intro h
    rw [h, buildPhase1Items_nil] at hnofit
    exact hnofit rfl
  rw [smartSortRun_config_ok hconf hmodel hps hts]
  rw [smartSortAfterFetch_phase1_some hne hp1]
  rw [if_neg (by simp [isEmpty_false_of_ne_nil hnofit])]
  rcases hfail with ⟨e, he⟩ | ⟨c2, hc2, hparse2⟩
  · simp only [runPhase2Model, he]
  · simp only [runPhase2Model, hc2, hparse2]

/-- Environment for the C4 witness: one task, no projects, Phase 1
assigns "no fit", Phase 2's chat call throws. -/
def c4Env : SmartSortEnv :=
  { projectsR := Except.ok []
    tasksR := Except.ok [{ name := "T", id := "t1", note := "" }]
    extractUrl := fun _ _ => none
    fetchMeta := fun _ => none
    updateThrows := fun _ _ _ => false
    phase1 := Except.ok "[0]"
    phase1Retry := Except.ok ""
    phase2 := Except.error "boom" }

/-- Configuration for the C4 witness (Ollama is always configured). -/
def c4Cfg : LLMConfig := { provider := LLMProvider.ollama, apiKey := "" }

/-- Settings for the C4 witness. -/
def c4St : PluginSettings := { llmModel := "m", llmModelOverrideSmartSort := "" }

/-- Witness for C4: the concrete run returns `ok` with the Phase 1 items
and a `Phase 2 failed` error. -/
theorem phase2_failure_keeps_items_witness :
    (smartSortRun c4Cfg c4St c4Env).fst = Except.ok
      { items := (buildPhase1Items (some [{ project := 0 }])
          (smartSortTasks c4St c4Env [{ name := "T", id := "t1", note := "" }]) []).fst
        processedCount := (smartSortTasks c4St c4Env
          [{ name := "T", id := "t1", note := "" }]).length
        totalCount := 1
        error := some "Phase 2 failed: boom" } :=
  phase2_failure_keeps_items c4Cfg c4St c4Env [] [{ name := "T", id := "t1", note := "" }]
    [{ project := 0 }] "[0]" rfl rfl (by decide) (by decide) (by rfl) (by decide)
    (Or.inl ⟨"boom", rfl⟩)

/-- **C8** (corrected).  `smartSort` raises synchronously on a
configuration error (chat client unconfigured, or no effective model),
before any store fetch or chat call — the external-call trace is empty —
and whenever the configuration is fine and the store fetches and both
possible Phase 1 chat calls succeed, the caller always receives a
`SmartSortResult`.  The original claim's "throws *only* on configuration
errors" fails: store-fetch and Phase 1 chat exceptions propagate uncaught
(see the counterexample). -/
theorem smartSort_throw_characterization :
    (∀ (cfg : LLMConfig) (st : PluginSettings) (env : SmartSortEnv),
      isLLMConfigured { cfg with model := some (getLLMModel st) } = false →
      smartSortRun cfg st env =
        (Except.error "LLM is not configured. Set API key or base URL in plugin settings.",
         [])) ∧
    (∀ (cfg : LLMConfig) (st : PluginSettings) (env : SmartSortEnv),
      isLLMConfigured { cfg with model := some (getLLMModel st) } = true →
      getLLMModel st = "" →
      smartSortRun cfg st env =
        (Except.error
          "No model selected for Smart Sort. Set Default model or Smart sort override in plugin settings.",
         [])) ∧
    (∀ (cfg : LLMConfig) (st : PluginSettings) (env : SmartSortEnv)
      (ps : List ProjectInfo) (ts : List OmniFocusTask) (c1 c2 : String),
      isLLMConfigured { cfg with model := some (getLLMModel st) } = true →
      getLLMModel st ≠ "" →
      env.projectsR = Except.ok ps → env.tasksR = Except.ok ts →
      env.phase1 = Except.ok c1 → env.phase1Retry = Except.ok c2 →
      ∃ r calls, smartSortRun cfg st env = (Except.ok r, calls)) := by
  refine ⟨?_, ?_, ?_⟩
  · intro cfg st env h
    simp only [smartSortRun, h, Bool.not_false, if_true]
  · intro cfg st env hconf hmodel
    rw [hmodel] at hconf
    simp [smartSortRun, hmodel, hconf]
  · intro cfg st env ps ts c1 c2 hconf hmodel hps hts hp1 hp1r
    have hok : ∃ r, (smartSortAfterFetch st env ps ts).fst = Except.ok r := by
      simp only [smartSortAfterFetch]
      by_cases hemp : (smartSortTasks st env ts).isEmpty
      · rw [if_pos hemp]
        exact ⟨_, rfl⟩
      · rw [if_neg hemp]
        have hp1m : ∃ o, runPhase1Model env (smartSortTasks st env ts).length ps.length =
            Except.ok o := by
          simp only [runPhase1Model, hp1, hp1r]
          cases parsePhase1Response c1 (smartSortTasks st env ts).length ps.length with
          | none => exact ⟨_, rfl⟩
          | some as => exact ⟨_, rfl⟩
        obtain ⟨⟨o, c⟩, ho⟩ := hp1m
        rw [ho]
        cases o with
        | none => exact ⟨_, rfl⟩
        | some as =>
          dsimp only
          split
          · exact ⟨_, rfl⟩
          · exact ⟨_, rfl⟩
    obtain ⟨r, hr⟩ := hok
    refine ⟨r, [ExtCall.fetchProjects, ExtCall.fetchTasksInbox] ++
      (smartSortAfterFetch st env ps ts).snd, ?_⟩
    rw [smartSortRun_config_ok hconf hmodel hps hts, hr]

/-- Environment for the C8 counterexample and witness: one inbox task;
the Phase 1 chat call throws. -/
def c8Env : SmartSortEnv :=
  { projectsR := Except.ok []
    tasksR := Except.ok [{ name := "T", id := "t1", note := "" }]
    extractUrl := fun _ _ => none
    fetchMeta := fun _ => none
    updateThrows := fun _ _ _ => false
    phase1 := Except.error "network down"
    phase1Retry := Except.ok ""
    phase2 := Except.ok "" }

/-- All-successful variant of `c8Env`. -/
def c8EnvOk : SmartSortEnv := { c8Env with phase1 := Except.ok "[0]" }

/-- Configuration for C8 (configured: Ollama). -/
def c8Cfg : LLMConfig := { provider := LLMProvider.ollama, apiKey := "" }

/-- Settings for C8 with a model selected. -/
def c8St : PluginSettings := { llmModel := "m", llmModelOverrideSmartSort := "" }

/-- Settings for C8 with no model resolvable. -/
def c8StNoModel : PluginSettings := { llmModel := "", llmModelOverrideSmartSort := "" }

/-- **C8** counterexample: the configuration is fine (Ollama provider,
model selected) yet `smartSort` throws, because the Phase 1 chat call's
exception is not caught anywhere. -/
theorem smartSort_phase1_throw_propagates :
    isLLMConfigured { c8Cfg with model := some (getLLMModel c8St) } = true ∧
    getLLMModel c8St ≠ "" ∧
    (smartSortRun c8Cfg c8St c8Env).fst = Except.error "network down" := by
  refine ⟨by decide, by decide, by rfl⟩

/-- Witness for C8: all three clauses applied at concrete inputs. -/
theorem smartSort_throw_characterization_witness :
    smartSortRun { provider := LLMProvider.openai, apiKey := "" } c8St c8Env =
      (Except.error "LLM is not configured. Set API key or base URL in plugin settings.",
       []) ∧
    smartSortRun c8Cfg c8StNoModel c8Env =
      (Except.error
        "No model selected for Smart Sort. Set Default model or Smart sort override in plugin settings.",
       []) ∧
    ∃ r calls, smartSortRun c8Cfg c8St c8EnvOk = (Except.ok r, calls) :=
  ⟨smartSort_throw_characterization.1 _ c8St c8Env (by decide),
   smartSort_throw_characterization.2.1 c8Cfg c8StNoModel c8Env (by decide) (by decide),
   smartSort_throw_characterization.2.2 c8Cfg c8St c8EnvOk []
     [{ name := "T", id := "t1", note := "" }] "[0]" "" (by decide) (by decide)
     rfl rfl rfl rfl⟩

/-! ## Structural lemmas about item construction -/

lemma preprocessOne_id (env : SmartSortEnv) (t : OmniFocusTask) :
    ((preprocessOne env t).fst).id = t.id := by
  simp only [preprocessOne]
  split
  · rfl
  · split
    · rfl
    · split <;> rfl

lemma smartSortTasks_map_id (st : PluginSettings) (env : SmartSortEnv)
    (ts : List OmniFocusTask) :
    (smartSortTasks st env ts).map (fun t => t.id) =
      (ts.map (fun t => t.id)).take (st.smartSortMaxTasksPerBatch.getD 10) := by
  simp only [smartSortTasks, preprocessTasks_fst, ← List.map_take, List.map_map]
  apply List.map_congr_left
  intro t _
  exact preprocessOne_id env t

lemma smartSortTasks_length (st : PluginSettings) (env : SmartSortEnv)
    (ts : List OmniFocusTask) :
    (smartSortTasks st env ts).length =
      min (st.smartSortMaxTasksPerBatch.getD 10) ts.length := by
  simp [smartSortTasks, preprocessTasks_fst]

lemma buildPhase1Go_ids_perm (as : List Phase1Assignment) (ps : List ProjectInfo) :
    ∀ (tasks : List OmniFocusTask) (i : Nat),
      ((buildPhase1Go as ps tasks i).fst.map (fun it => it.taskId) ++
        (buildPhase1Go as ps tasks i).snd.map (fun t => t.id)).Perm
        (tasks.map (fun t => t.id)) := by
  intro tasks
  induction tasks with
  | nil => intro i; rfl
  | cons t rest ih =>
    intro i
    simp only [buildPhase1Go]
    split
    · simp only [List.map_cons, List.cons_append]
      exact (ih (i + 1)).cons t.id
    · simp only [List.map_cons]
      exact (List.perm_middle.trans ((ih (i + 1)).cons t.id))

lemma buildPhase1_item_id_mem {as : List Phase1Assignment} {ps : List ProjectInfo}
    {tasks : List OmniFocusTask} {it : SmartSortItem}
    (h : it ∈ (buildPhase1Items (some as) tasks ps).fst) :
    it.taskId ∈ tasks.map (fun t => t.id) := by
  have hperm := buildPhase1Go_ids_perm as ps tasks 0
  exact hperm.subset (List.mem_append_left _ (List.mem_map_of_mem _ h))

lemma buildPhase1_nofit_id_mem {as : List Phase1Assignment} {ps : List ProjectInfo}
    {tasks : List OmniFocusTask} {t : OmniFocusTask}
    (h : t ∈ (buildPhase1Items (some as) tasks ps).snd) :
    t.id ∈ tasks.map (fun t => t.id) := by
  have hperm := buildPhase1Go_ids_perm as ps tasks 0
  exact hperm.subset (List.mem_append_right _ (List.mem_map_of_mem _ h))

lemma buildPhase1_item_type {as : List Phase1Assignment} {ps : List ProjectInfo} :
    ∀ {tasks : List OmniFocusTask} {i : Nat} {it : SmartSortItem},
      it ∈ (buildPhase1Go as ps tasks i).fst → it.type = SmartSortItemKind.existing := by
  intro tasks
  induction tasks with
  | nil => intro i it h; simp [buildPhase1Go] at h
  | cons t rest ih =>
    intro i it h
    simp only [buildPhase1Go] at h
    split at h
    · rcases List.mem_cons.mp h with rfl | h2
      · rfl
      · exact ih h2
    · exact ih h

lemma phase2Merge_mem {noFit : List OmniFocusTask} {ss : List Phase2Suggestion}
    {it : SmartSortItem} (h : it ∈ phase2Merge noFit ss) :
    ∃ s ∈ ss, ∃ t ∈ noFit, noFit.find? (fun t => phase2NameMatches t s) = some t ∧
      it = mkPhase2Item t s := by
  obtain ⟨s, hs, hmap⟩ := List.mem_filterMap.mp h
  obtain ⟨t, hfind, heq⟩ := Option.map_eq_some'.mp hmap
  exact ⟨s, hs, t, List.mem_of_find?_eq_some hfind, hfind, heq.symm⟩

lemma phase2Merge_id_mem {noFit : List OmniFocusTask} {ss : List Phase2Suggestion}
    {it : SmartSortItem} (h : it ∈ phase2Merge noFit ss) :
    it.taskId ∈ noFit.map (fun t => t.id) := by
  obtain ⟨s, _, t, ht, _, rfl⟩ := phase2Merge_mem h
  exact List.mem_map_of_mem _ ht

lemma phase2Merge_item_type {noFit : List OmniFocusTask} {ss : List Phase2Suggestion}
    {it : SmartSortItem} (h : it ∈ phase2Merge noFit ss) :
    it.type ≠ SmartSortItemKind.existing := by
  obtain ⟨s, _, t, _, _, rfl⟩ := phase2Merge_mem h
  simp only [mkPhase2Item]
  split
  · split <;> simp
  · simp

/-! ## Inversion of a successful run -/

lemma smartSortRun_ok_inv {cfg : LLMConfig} {st : PluginSettings} {env : SmartSortEnv}
    {r : SmartSortResult} {calls : List ExtCall}
    (hrun : smartSortRun cfg st env = (Except.ok r, calls)) :
    ∃ ps ts, env.projectsR = Except.ok ps ∧ env.tasksR = Except.ok ts ∧
      (smartSortAfterFetch st env ps ts).fst = Except.ok r := by
  cases hps : env.projectsR with
  | error e =>
    exfalso
    simp only [smartSortRun, hps] at hrun
    split_ifs at hrun <;> exact absurd (congrArg Prod.fst hrun) (by simp)
  | ok ps =>
    cases hts : env.tasksR with
    | error e =>
      exfalso
      simp only [smartSortRun, hps, hts] at hrun
      split_ifs at hrun <;> exact absurd (congrArg Prod.fst hrun) (by simp)
    | ok ts =>
      exact ⟨ps, ts, rfl, rfl, smartSortRun_fst_ok hps hts hrun⟩

lemma smartSortAfterFetch_ok_inv {st : PluginSettings} {env : SmartSortEnv}
    {ps : List ProjectInfo} {ts : List OmniFocusTask} {r : SmartSortResult}
    (h : (smartSortAfterFetch st env ps ts).fst = Except.ok r) :
    (smartSortTasks st env ts = [] ∧
      r = { items := [], processedCount := 0, totalCount := ts.length,
            error := some "No inbox tasks to sort." }) ∨
    (smartSortTasks st env ts ≠ [] ∧
      ∃ o c1, runPhase1Model env (smartSortTasks st env ts).length ps.length =
          Except.ok (o, c1) ∧
        ((o = none ∧ r.items = [] ∧
          r.processedCount = (smartSortTasks st env ts).length ∧
          r.totalCount = ts.length ∧ r.error.isSome) ∨
         (∃ as, o = some as ∧
          r.processedCount = (smartSortTasks st env ts).length ∧
          r.totalCount = ts.length ∧
          ∃ tail,
            r.items = (buildPhase1Items (some as) (smartSortTasks st env ts) ps).fst ++ tail ∧
            (tail = [] ∨ ∃ c2 ss, env.phase2 = Except.ok c2 ∧
              parsePhase2Response c2 = some ss ∧
              tail = phase2Merge (buildPhase1Items (some as) (smartSortTasks st env ts) ps).snd
                ss)))) := by
  by_cases hemp : smartSortTasks st env ts = []
  · left
    refine ⟨hemp, ?_⟩
    simp only [smartSortAfterFetch, hemp, List.isEmpty_nil, if_true] at h
    exact (Except.ok.inj h).symm
  · right
    refine ⟨hemp, ?_⟩
    simp only [smartSortAfterFetch, isEmpty_false_of_ne_nil hemp, Bool.false_eq_true,
      if_false] at h
    cases hrp : runPhase1Model env (smartSortTasks st env ts).length ps.length with
    | error e => rw [hrp] at h; exact absurd h (by simp)
    | ok oc =>
      obtain ⟨o, c1⟩ := oc
      rw [hrp] at h
      refine ⟨o, c1, rfl, ?_⟩
      cases o with
      | none =>
        left
        have hr := (Except.ok.inj h).symm
        subst hr
        exact ⟨rfl, rfl, rfl, rfl, rfl⟩
      | some as =>
        right
        refine ⟨as, rfl, ?_⟩
        dsimp only at h
        by_cases hnf : (buildPhase1Items (some as) (smartSortTasks st env ts) ps).snd.isEmpty
        · rw [if_pos hnf] at h
          have hr := (Except.ok.inj h).symm
          subst hr
          exact ⟨rfl, rfl, [], (List.append_nil _).symm, Or.inl rfl⟩
        · rw [if_neg hnf] at h
          have hr := (Except.ok.inj h).symm
          subst hr
          cases hp2 : env.phase2 with
          | error e =>
            exact ⟨by simp [runPhase2Model, hp2], by simp [runPhase2Model, hp2], [],
              by simp [runPhase2Model, hp2], Or.inl rfl⟩
          | ok c2 =>
            cases hparse2 : parsePhase2Response c2 with
            | none =>
              exact ⟨by simp [runPhase2Model, hp2, hparse2],
                by simp [runPhase2Model, hp2, hparse2], [],
                by simp [runPhase2Model, hp2, hparse2], Or.inl rfl⟩
            | some ss =>
              exact ⟨by simp [runPhase2Model, hp2, hparse2],
                by simp [runPhase2Model, hp2, hparse2],
                phase2Merge (buildPhase1Items (some as) (smartSortTasks st env ts) ps).snd ss,
                by simp [runPhase2Model, hp2, hparse2], Or.inr ⟨c2, ss, rfl, hparse2, rfl⟩⟩

lemma buildPhase1Items_item_type {as : List Phase1Assignment} {ps : List ProjectInfo}
    {tasks : List OmniFocusTask} {it : SmartSortItem}
    (h : it ∈ (buildPhase1Items (some as) tasks ps).fst) :
    it.type = SmartSortItemKind.existing :=
  buildPhase1_item_type h

/-- **C10** (confirmed).  In every result of a run whose Phase 1 parsing
succeeded, the item list is exactly the Phase-1-derived `existing` items
(built positionally over the capped batch) followed by a tail of
Phase-2-derived items: the tail is empty, or it is precisely the
suggestion-ordered merge of the parsed Phase 2 suggestion list against
the no-fit tasks; its items are never `existing`-kind, and Phase 2 never
removes or reorders a Phase 1 item. -/
theorem smartSort_item_order (cfg : LLMConfig) (st : PluginSettings) (env : SmartSortEnv)
    (ps : List ProjectInfo) (ts : List OmniFocusTask) (as : List Phase1Assignment)
    (c1 : String) (r : SmartSortResult) (calls : List ExtCall)
    (hps : env.projectsR = Except.ok ps) (hts : env.tasksR = Except.ok ts)
    (hp1 : runPhase1Model env (smartSortTasks st env ts).length ps.length =
      Except.ok (some as, c1))
    (hrun : smartSortRun cfg st env = (Except.ok r, calls)) :
    ∃ tail,
      r.items = (buildPhase1Items (some as) (smartSortTasks st env ts) ps).fst ++ tail ∧
      (∀ it ∈ (buildPhase1Items (some as) (smartSortTasks st env ts) ps).fst,
        it.type = SmartSortItemKind.existing) ∧
      (∀ it ∈ tail, it.type ≠ SmartSortItemKind.existing) ∧
      (tail = [] ∨ ∃ c2 ss, env.phase2 = Except.ok c2 ∧ parsePhase2Response c2 = some ss ∧
        tail = phase2Merge (buildPhase1Items (some as) (smartSortTasks st env ts) ps).snd
          ss) := by
  have hfst := smartSortRun_fst_ok hps hts hrun
  rcases smartSortAfterFetch_ok_inv hfst with ⟨hemp, hr⟩ | ⟨hne, o, c1', hrp, hcase⟩
  · subst hr
    refine ⟨[], ?_, ?_, by simp, Or.inl rfl⟩
    · rw [hemp, buildPhase1Items_nil]
      rfl
    · rw [hemp, buildPhase1Items_nil]
      intro it hit
      simp at hit
  · have h2 := Except.ok.inj (hp1.symm.trans hrp)
    have ho : o = some as := (congrArg Prod.fst h2).symm
    subst ho
    rcases hcase with ⟨hnone, _⟩ | ⟨as', hsome, _, _, tail, hitems, hdisj⟩
    · exact absurd hnone (by simp)
    · have has : as' = as := Option.some.inj hsome.symm
      subst has
      refine ⟨tail, hitems, fun it hit => buildPhase1Items_item_type hit, ?_, ?_⟩
      · intro it hit
        rcases hdisj with rfl | ⟨c2, ss, _, _, rfl⟩
        · simp at hit
        · exact phase2Merge_item_type hit
      · rcases hdisj with rfl | ⟨c2, ss, ha, hb, rfl⟩
        · exact Or.inl rfl
        · exact Or.inr ⟨c2, ss, ha, hb, rfl⟩

/-- Environment for the C10 witness: two tasks, one project, Phase 1
assigns the first and leaves the second without a fit, Phase 2 suggests a
new project for it. -/
def c10Env : SmartSortEnv :=
  { projectsR := Except.ok [{ name := "P1", note := "" }]
    tasksR := Except.ok [{ name := "T1", id := "t1", note := "" },
                         { name := "T2", id := "t2", note := "" }]
    extractUrl := fun _ _ => none
    fetchMeta := fun _ => none
    updateThrows := fun _ _ _ => false
    phase1 := Except.ok "[1,0]"
    phase1Retry := Except.ok ""
    phase2 := Except.ok "[\x7b\"task\":\"T2\",\"suggestion\":\"New P\"\x7d]" }

/-- Configuration for the C10 witness. -/
def c10Cfg : LLMConfig := { provider := LLMProvider.ollama, apiKey := "" }

/-- Settings for the C10 witness. -/
def c10St : PluginSettings := { llmModel := "m", llmModelOverrideSmartSort := "" }

/-- The result of the C10 witness run. -/
def c10Res : SmartSortResult :=
  { items := [{ taskId := "t1", taskName := "T1", projectName := "P1"
                type := SmartSortItemKind.existing, reasoning := none },
              { taskId := "t2", taskName := "T2", projectName := "New P"
                type := SmartSortItemKind.project, reasoning := none }]
    processedCount := 2
    totalCount := 2 }

/-- Witness for C10: the concrete run's items decompose as Phase 1 items
followed by the Phase 2 merge. -/
theorem smartSort_item_order_witness :
    ∃ tail,
      c10Res.items =
        (buildPhase1Items (some [{ project := 1 }, { project := 0 }])
          (smartSortTasks c10St c10Env
            [{ name := "T1", id := "t1", note := "" },
             { name := "T2", id := "t2", note := "" }])
          [{ name := "P1", note := "" }]).fst ++ tail ∧
      ∀ it ∈ tail, it.type ≠ SmartSortItemKind.existing := by
  obtain ⟨tail, h1, _, h3, _⟩ := smartSort_item_order c10Cfg c10St c10Env
    [{ name := "P1", note := "" }]
    [{ name := "T1", id := "t1", note := "" }, { name := "T2", id := "t2", note := "" }]
    [{ project := 1 }, { project := 0 }] "[1,0]" c10Res
    [ExtCall.fetchProjects, ExtCall.fetchTasksInbox, ExtCall.chat 1, ExtCall.chat 2]
    rfl rfl (by rfl) (by rfl)
  exact ⟨tail, h1, h3⟩

/-- **C9** (confirmed).  When the fetched inbox exceeds the configured
max-per-batch (default 10), the returned result has `processedCount`
equal to the cap and `totalCount` equal to the unfiltered fetched count,
and every item references a task among the first `cap` fetched tasks;
and whenever the capped batch is empty, the run returns an empty item
list with the error field set and `processedCount` zero. -/
theorem smartSort_batch_cap :
    (∀ (cfg : LLMConfig) (st : PluginSettings) (env : SmartSortEnv)
       (ts : List OmniFocusTask) (r : SmartSortResult) (calls : List ExtCall),
      env.tasksR = Except.ok ts →
      smartSortRun cfg st env = (Except.ok r, calls) →
      st.smartSortMaxTasksPerBatch.getD 10 < ts.length →
      r.processedCount = st.smartSortMaxTasksPerBatch.getD 10 ∧
      r.totalCount = ts.length ∧
      ∀ it ∈ r.items,
        it.taskId ∈ (ts.map (fun t => t.id)).take (st.smartSortMaxTasksPerBatch.getD 10)) ∧
    (∀ (cfg : LLMConfig) (st : PluginSettings) (env : SmartSortEnv)
       (ps : List ProjectInfo) (ts : List OmniFocusTask),
      isLLMConfigured { cfg with model := some (getLLMModel st) } = true →
      getLLMModel st ≠ "" →
      env.projectsR = Except.ok ps → env.tasksR = Except.ok ts →
      smartSortTasks st env ts = [] →
      (smartSortRun cfg st env).fst = Except.ok
        { items := [], processedCount := 0, totalCount := ts.length,
          error := some "No inbox tasks to sort." }) := by
  constructor
  · intro cfg st env ts r calls hts hrun hgt
    obtain ⟨ps, ts', hps', hts', hfst⟩ := smartSortRun_ok_inv hrun
    have hts2 : ts' = ts := by
      rw [hts] at hts'
      exact (Except.ok.inj hts').symm
    rw [hts2] at hfst
    rcases smartSortAfterFetch_ok_inv hfst with ⟨hemp, hr⟩ | ⟨hne, o, c1, hrp, hcase⟩
    · subst hr
      have hlen0 : min (st.smartSortMaxTasksPerBatch.getD 10) ts.length = 0 := by
        rw [← smartSortTasks_length st env ts, hemp]
        rfl
      have hcap0 : st.smartSortMaxTasksPerBatch.getD 10 = 0 := by omega
      exact ⟨hcap0.symm, rfl, by intro it h; simp at h⟩
    · have hlen : (smartSortTasks st env ts).length = st.smartSortMaxTasksPerBatch.getD 10 := by
        rw [smartSortTasks_length]
        omega
      rcases hcase with ⟨_, hitems, hproc, htot, _⟩ | ⟨as, _, hproc, htot, tail, hitems, hdisj⟩
      · exact ⟨by rw [hproc, hlen], htot, by rw [hitems]; intro it h; simp at h⟩
      · refine ⟨by rw [hproc, hlen], htot, ?_⟩
        intro it hit
        rw [hitems] at hit
        rw [← smartSortTasks_map_id]
        rcases List.mem_append.mp hit with h1 | h2
        · exact buildPhase1_item_id_mem h1
        · rcases hdisj with rfl | ⟨c2, ss, _, _, rfl⟩
          · simp at h2
          · obtain ⟨t, ht, heq⟩ := List.mem_map.mp (phase2Merge_id_mem h2)
            rw [← heq]
            exact buildPhase1_nofit_id_mem ht
  · intro cfg st env ps ts hconf hmodel hps hts hemp
    rw [smartSortRun_config_ok hconf hmodel hps hts]
    simp only [smartSortAfterFetch, hemp, List.isEmpty_nil, if_true]

/-- Environment for the C9 witness: two fetched tasks against a cap of
one; the single processed task finds no fit and Phase 2 returns an empty
suggestion array. -/
def c9Env : SmartSortEnv :=
  { projectsR := Except.ok []
    tasksR := Except.ok [{ name := "T1", id := "t1", note := "" },
                         { name := "T2", id := "t2", note := "" }]
    extractUrl := fun _ _ => none
    fetchMeta := fun _ => none
    updateThrows := fun _ _ _ => false
    phase1 := Except.ok "[0]"
    phase1Retry := Except.ok ""
    phase2 := Except.ok "[]" }

/-- Variant of `c9Env` with an empty inbox. -/
def c9EnvEmpty : SmartSortEnv := { c9Env with tasksR := Except.ok [] }

/-- Configuration for the C9 witness. -/
def c9Cfg : LLMConfig := { provider := LLMProvider.ollama, apiKey := "" }

/-- Settings for the C9 witness: max one task per batch. -/
def c9St : PluginSettings :=
  { llmModel := "m", llmModelOverrideSmartSort := "", smartSortMaxTasksPerBatch := some 1 }

/-- Witness for C9: with two fetched tasks and a cap of one, the result
counts one processed of two total; with an empty inbox the run returns
the explicitly-errored empty result. -/
theorem smartSort_batch_cap_witness :
    (({ items := [], processedCount := 1, totalCount := 2 } : SmartSortResult).processedCount
        = 1 ∧
      ({ items := [], processedCount := 1, totalCount := 2 } : SmartSortResult).totalCount
        = 2) ∧
    (smartSortRun c9Cfg c9St c9EnvEmpty).fst = Except.ok
      { items := [], processedCount := 0, totalCount := 0,
        error := some "No inbox tasks to sort." } := by
  constructor
  · obtain ⟨h1, h2, _⟩ := smartSort_batch_cap.1 c9Cfg c9St c9Env
      [{ name := "T1", id := "t1", note := "" }, { name := "T2", id := "t2", note := "" }]
      { items := [], processedCount := 1, totalCount := 2 }
      [ExtCall.fetchProjects, ExtCall.fetchTasksInbox, ExtCall.chat 1, ExtCall.chat 2]
      rfl (by rfl) (by norm_num [c9St])
    exact ⟨h1, h2⟩
  · exact smartSort_batch_cap.2 c9Cfg c9St c9EnvEmpty [] [] (by decide) (by decide)
      rfl rfl (by rfl)

/-! ## Task uniqueness across items (C3) -/

lemma phase2NameMatches_eq {t : OmniFocusTask} {s : Phase2Suggestion}
    (h : phase2NameMatches t s = true) :
    jsToLower (jsTrim t.name) = jsToLower (jsTrim s.task) := by
  simpa [phase2NameMatches] using h

lemma phase2Merge_ids_nodup {noFit : List OmniFocusTask} :
    ∀ {ss : List Phase2Suggestion},
      (noFit.map (fun t => t.id)).Nodup →
      (ss.map (fun s => jsToLower (jsTrim s.task))).Nodup →
      ((phase2Merge noFit ss).map (fun it => it.taskId)).Nodup := by
  intro ss
  induction ss with
  | nil => intro _ _; simp [phase2Merge]
  | cons s rest ih =>
    intro hB hnorm
    obtain ⟨hsmem, hnorm'⟩ := List.nodup_cons.mp hnorm
    simp only [phase2Merge, List.filterMap_cons]
    cases hfind : noFit.find? (fun t => phase2NameMatches t s) with
    | none => exact ih hB hnorm'
    | some t =>
      simp only [Option.map_some']
      rw [List.map_cons, List.nodup_cons]
      refine ⟨?_, ih hB hnorm'⟩
      intro hmem
      obtain ⟨it, hit, heq⟩ := List.mem_map.mp hmem
      obtain ⟨s', hs', t', ht', hfind', rfl⟩ := phase2Merge_mem hit
      have htmem : t ∈ noFit := List.mem_of_find?_eq_some hfind
      have hteq : t' = t := List.inj_on_of_nodup_map hB ht' htmem heq
      have hpt : phase2NameMatches t s = true := by
        have h := List.find?_some hfind
        simpa using h
      have hpt' : phase2NameMatches t' s' = true := by
        have h := List.find?_some hfind'
        simpa using h
      have hmt : jsToLower (jsTrim t.name) = jsToLower (jsTrim s.task) :=
        phase2NameMatches_eq hpt
      have hmt' : jsToLower (jsTrim t'.name) = jsToLower (jsTrim s'.task) :=
        phase2NameMatches_eq hpt'
      rw [hteq] at hmt'
      apply hsmem
      show jsToLower (jsTrim s.task) ∈ _
      rw [hmt.symm.trans hmt']
      exact List.mem_map_of_mem _ hs'

/-- **C3** (corrected).  When the fetched batch has pairwise-distinct
task ids and no two Phase 2 suggestions carry the same trimmed,
lowercased task text, every task id occurs in at most one `SmartSortItem`
of a successful run's result.  The original unconditional claim fails:
the Phase 2 merge loop pushes one item per matching suggestion with no
deduplication, so two suggestions naming the same no-fit task put that
task id into two items (see the counterexample). -/
theorem smartSort_taskId_unique (cfg : LLMConfig) (st : PluginSettings)
    (env : SmartSortEnv) (ts : List OmniFocusTask) (r : SmartSortResult)
    (calls : List ExtCall)
    (hts : env.tasksR = Except.ok ts)
    (hids : (ts.map (fun t => t.id)).Nodup)
    (hsug : ∀ c ss, env.phase2 = Except.ok c → parsePhase2Response c = some ss →
      (ss.map (fun s => jsToLower (jsTrim s.task))).Nodup)
    (hrun : smartSortRun cfg st env = (Except.ok r, calls)) :
    (r.items.map (fun it => it.taskId)).Nodup := by
  obtain ⟨ps, ts', hps', hts', hfst⟩ := smartSortRun_ok_inv hrun
  have hts2 : ts' = ts := by
    rw [hts] at hts'
    exact (Except.ok.inj hts').symm
  rw [hts2] at hfst
  have hidsT : ((smartSortTasks st env ts).map (fun t => t.id)).Nodup := by
    rw [smartSortTasks_map_id]
    exact hids.sublist (List.take_sublist _ _)
  rcases smartSortAfterFetch_ok_inv hfst with ⟨hemp, hr⟩ | ⟨hne, o, c1, hrp, hcase⟩
  · subst hr
    simp
  · have hcomb : (((buildPhase1Items (some (o.getD [])) (smartSortTasks st env ts) ps).fst.map
        (fun it => it.taskId)) ++
        ((buildPhase1Items (some (o.getD [])) (smartSortTasks st env ts) ps).snd.map
        (fun t => t.id))).Nodup := by
      exact (buildPhase1Go_ids_perm (o.getD []) ps (smartSortTasks st env ts) 0).nodup_iff.mpr
        hidsT
    rcases hcase with ⟨_, hitems, _, _, _⟩ | ⟨as, ho, _, _, tail, hitems, hdisj⟩
    · rw [hitems]
      simp
    · subst ho
      have hA := (List.nodup_append.mp hcomb).1
      have hB := (List.nodup_append.mp hcomb).2.1
      have hAB := (List.nodup_append.mp hcomb).2.2
      rw [hitems, List.map_append]
      rcases hdisj with rfl | ⟨c2, ss, hp2, hparse2, rfl⟩
      · simpa using hA
      · have hnorm := hsug c2 ss hp2 hparse2
        rw [List.nodup_append]
        refine ⟨hA, phase2Merge_ids_nodup hB hnorm, ?_⟩
        intro a haA haM
        obtain ⟨it, hit, heq⟩ := List.mem_map.mp haM
        have : a ∈ (buildPhase1Items (some ((some as).getD []))
            (smartSortTasks st env ts) ps).snd.map (fun t => t.id) := by
          rw [← heq]
          exact phase2Merge_id_mem hit
        exact hAB haA this

/-- Environment for the C3 counterexample: a single no-fit task and two
Phase 2 suggestions whose task texts both match it after trimming and
lowercasing. -/
def c3Env : SmartSortEnv :=
  { projectsR := Except.ok []
    tasksR := Except.ok [{ name := "Task One", id := "t1", note := "" }]
    extractUrl := fun _ _ => none
    fetchMeta := fun _ => none
    updateThrows := fun _ _ _ => false
    phase1 := Except.ok "[0]"
    phase1Retry := Except.ok ""
    phase2 := Except.ok
      "[\x7b\"task\":\"Task One\",\"suggestion\":\"P\"\x7d,\x7b\"task\":\" task one \",\"suggestion\":\"Q\"\x7d]" }

/-- All-distinct variant for the C3 witness: one assigned task and one
no-fit task with a single matching suggestion. -/
def c3EnvOk : SmartSortEnv :=
  { projectsR := Except.ok [{ name := "P1", note := "" }]
    tasksR := Except.ok [{ name := "T1", id := "t1", note := "" },
                         { name := "T2", id := "t2", note := "" }]
    extractUrl := fun _ _ => none
    fetchMeta := fun _ => none
    updateThrows := fun _ _ _ => false
    phase1 := Except.ok "[1,0]"
    phase1Retry := Except.ok ""
    phase2 := Except.ok "[\x7b\"task\":\"T2\",\"suggestion\":\"New P\"\x7d]" }

/-- Configuration for C3. -/
def c3Cfg : LLMConfig := { provider := LLMProvider.ollama, apiKey := "" }

/-- Settings for C3. -/
def c3St : PluginSettings := { llmModel := "m", llmModelOverrideSmartSort := "" }

/-- **C3** counterexample: the run succeeds and its item list carries the
task id `t1` twice — one item per matching Phase 2 suggestion — so a task
does not appear in at most one item. -/
theorem smartSort_duplicate_items :
    (smartSortRun c3Cfg c3St c3Env).fst.map (fun r => r.items.map (fun it => it.taskId)) =
      Except.ok ["t1", "t1"] ∧
    ¬ (["t1", "t1"] : List String).Nodup := by
  exact ⟨by rfl, by decide⟩

/-- Witness for C3's amended claim: a concrete run with distinct ids and
distinct suggestion texts has pairwise-distinct item task ids. -/
theorem smartSort_taskId_unique_witness :
    ((({ items := [{ taskId := "t1", taskName := "T1", projectName := "P1"
                     type := SmartSortItemKind.existing, reasoning := none },
                   { taskId := "t2", taskName := "T2", projectName := "New P"
                     type := SmartSortItemKind.project, reasoning := none }]
         processedCount := 2
         totalCount := 2 } : SmartSortResult).items.map (fun it => it.taskId))).Nodup := by
  apply smartSort_taskId_unique c3Cfg c3St c3EnvOk
    [{ name := "T1", id := "t1", note := "" }, { name := "T2", id := "t2", note := "" }]
    _ [ExtCall.fetchProjects, ExtCall.fetchTasksInbox, ExtCall.chat 1, ExtCall.chat 2]
    rfl (by decide) ?_ (by rfl)
  intro c ss h1 h2
  have hc : c = "[\x7b\"task\":\"T2\",\"suggestion\":\"New P\"\x7d]" :=
    (Except.ok.inj h1).symm
  subst hc
  have hp : parsePhase2Response "[\x7b\"task\":\"T2\",\"suggestion\":\"New P\"\x7d]" =
      some [{ task := "T2", suggestion := "New P" }] := by rfl
  rw [hp] at h2
  have hss : ss = [{ task := "T2", suggestion := "New P" }] := (Option.some.inj h2).symm
  subst hss
  decide

end OmniSync
